import Mathlib

/-!
Verification of the memory-management core of the `uefi-bootloader` crate:
address canonicalization, the bump frame allocator, the top-level page
allocator, the aarch64 page-table mapper, ELF segment loading, memory-map
translation and the RSDP configuration-table lookup.

Machine integers (`usize`/`u64`) are embedded as `Nat` with explicit
`% 2 ^ 64` at the points where the Rust code can wrap, and saturating
arithmetic is written out explicitly, mirroring the source.
-/

namespace Spec2Proof

/-- The 4 KiB page size shared by both architectures. -/
def PAGE_SIZE : Nat := 4096

/-- usize::MAX on a 64-bit target. -/
def USIZE_MAX : Nat := 2 ^ 64 - 1

/-- MAX_PAGE_NUMBER = usize::MAX / PAGE_SIZE. -/
def MAX_PAGE_NUMBER : Nat := USIZE_MAX / PAGE_SIZE

/-- BitField::get_bits(lo..hi) on a 64-bit integer. -/
def get_bits (a lo hi : Nat) : Nat := (a >>> lo) &&& (2 ^ (hi - lo) - 1)

/-- Saturating addition of two usize values. -/
def saturating_add (a b : Nat) : Nat := min (a + b) USIZE_MAX

/-- Saturating subtraction of two usize values (Nat subtraction already
saturates at zero). -/
def saturating_sub (a b : Nat) : Nat := a - b

namespace X86

/-- From src/uefi-bootloader/src/arch/x86_64/memory.rs: a virtual address is
canonical when bits 47..64 are all zero or all one. -/
def is_canonical_virtual_address (virt_addr : Nat) : Bool :=
  get_bits virt_addr 47 64 == 0 || get_bits virt_addr 47 64 == 0x1FFFF

/-- Branch-free sign extension from bit 47: shift left 16 then arithmetic
shift right 16 on the 64-bit two's-complement representation.  The
arithmetic right shift of a negative value fills the 16 upper bits with
ones; since the logical shift result is below 2 ^ 48 those bits are
disjoint and the fill is the addition of 0xFFFF000000000000. -/
def canonicalize_virtual_address (virt_addr : Nat) : Nat :=
  let t := (virt_addr <<< 16) % 2 ^ 64
  if t < 2 ^ 63 then t >>> 16 else t >>> 16 + 0xFFFF000000000000

/-- A physical address is canonical when bits 52..64 are zero. -/
def is_canonical_physical_address (phys_addr : Nat) : Bool :=
  get_bits phys_addr 52 64 == 0

/-- Clear bits 52..64. -/
def canonicalize_physical_address (phys_addr : Nat) : Nat :=
  phys_addr &&& 0xFFFFFFFFFFFFF

end X86

namespace A64

/-- From src/uefi-bootloader/src/arch/aarch64/memory.rs: a virtual address is
canonical when the 16 most significant bits are cleared. -/
def is_canonical_virtual_address (virt_addr : Nat) : Bool :=
  get_bits virt_addr 48 64 == 0

/-- Mask to the low 48 bits. -/
def canonicalize_virtual_address (virt_addr : Nat) : Nat :=
  virt_addr &&& 0xFFFFFFFFFFFF

/-- A physical address is canonical when the 16 most significant bits are
cleared. -/
def is_canonical_physical_address (phys_addr : Nat) : Bool :=
  get_bits phys_addr 48 64 == 0

/-- Mask to the low 48 bits. -/
def canonicalize_physical_address (phys_addr : Nat) : Nat :=
  phys_addr &&& 0xFFFFFFFFFFFF

end A64

lemma land_two_pow_sub_one (a n : Nat) : a &&& (2 ^ n - 1) = a % 2 ^ n := by
  apply Nat.eq_of_testBit_eq
  intro i
  rw [Nat.testBit_land, Nat.testBit_mod_two_pow, Nat.testBit_two_pow_sub_one,
    Bool.and_comm]

lemma get_bits_eq_div_mod (a lo hi : Nat) :
    get_bits a lo hi = a / 2 ^ lo % 2 ^ (hi - lo) := by
  rw [get_bits, land_two_pow_sub_one, Nat.shiftRight_eq_div_pow]

lemma X86.canonicalize_virtual_eq (a : Nat) :
    X86.canonicalize_virtual_address a =
      if a % 2 ^ 48 < 2 ^ 47 then a % 2 ^ 48
      else a % 2 ^ 48 + (2 ^ 64 - 2 ^ 48) := by
  have hshift : (a <<< 16) % 2 ^ 64 = a % 2 ^ 48 * 2 ^ 16 := by
    rw [Nat.shiftLeft_eq]
    omega
  rw [X86.canonicalize_virtual_address]
  simp only [hshift]
  rcases Nat.lt_or_ge (a % 2 ^ 48) (2 ^ 47) with hc | hc
  · rw [if_pos (by omega), if_pos hc, Nat.shiftRight_eq_div_pow]
    omega
  · rw [if_neg (by omega), if_neg (by omega), Nat.shiftRight_eq_div_pow]
    omega

/-- Claim C10: for each of the four architecture/type pairs, the
canonicalizing constructor fixes exactly the canonical inputs: for every
64-bit value a, canonicalize(a) = a iff is_canonical(a). -/
theorem canonicalize_fixed_iff_canonical (a : Nat) (h : a < 2 ^ 64) :
    (X86.canonicalize_virtual_address a = a ↔ X86.is_canonical_virtual_address a = true) ∧
    (X86.canonicalize_physical_address a = a ↔ X86.is_canonical_physical_address a = true) ∧
    (A64.canonicalize_virtual_address a = a ↔ A64.is_canonical_virtual_address a = true) ∧
    (A64.canonicalize_physical_address a = a ↔ A64.is_canonical_physical_address a = true) := by
  have hmask48 : (0xFFFFFFFFFFFF : Nat) = 2 ^ 48 - 1 := by norm_num
  have hmask52 : (0xFFFFFFFFFFFFF : Nat) = 2 ^ 52 - 1 := by norm_num
  refine ⟨?_, ?_, ?_, ?_⟩
  · rw [X86.canonicalize_virtual_eq a, X86.is_canonical_virtual_address,
      get_bits_eq_div_mod]
    have h17 : a / 2 ^ 47 % 2 ^ (64 - 47) = a / 2 ^ 47 := by
      apply Nat.mod_eq_of_lt
      norm_num
      omega
    rw [h17]
    have hsplit : a / 2 ^ 47 = a / 2 ^ 48 * 2 + a % 2 ^ 48 / 2 ^ 47 := by
      omega
    constructor
    · intro hfix
      rcases Nat.lt_or_ge (a % 2 ^ 48) (2 ^ 47) with hc | hc
      · rw [if_pos hc] at hfix
        have : a / 2 ^ 48 = 0 := by omega
        simp only [beq_iff_eq, Bool.or_eq_true]
        left
        omega
      · rw [if_neg (Nat.not_lt.2 hc)] at hfix
        have h48 : a / 2 ^ 48 = 2 ^ 16 - 1 := by omega
        simp only [beq_iff_eq, Bool.or_eq_true]
        right
        have : a % 2 ^ 48 / 2 ^ 47 = 1 := by
          have : a % 2 ^ 48 < 2 ^ 48 := Nat.mod_lt _ (by norm_num)
          omega
        omega
    · intro hcan
      simp only [beq_iff_eq, Bool.or_eq_true] at hcan
      have hbit : a % 2 ^ 48 / 2 ^ 47 = a % 2 ^ 48 / 2 ^ 47 := rfl
      have hlt : a % 2 ^ 48 < 2 ^ 48 := Nat.mod_lt _ (by norm_num)
      rcases hcan with hcan | hcan
      · have h0 : a / 2 ^ 48 = 0 ∧ a % 2 ^ 48 / 2 ^ 47 = 0 := by omega
        rw [if_pos (by omega)]
        omega
      · have h1 : a / 2 ^ 48 = 2 ^ 16 - 1 ∧ a % 2 ^ 48 / 2 ^ 47 = 1 := by
          constructor <;> omega
        rw [if_neg (by omega)]
        omega
  · rw [X86.canonicalize_physical_address, hmask52, land_two_pow_sub_one,
      X86.is_canonical_physical_address, get_bits_eq_div_mod]
    have : a / 2 ^ 52 % 2 ^ (64 - 52) = a / 2 ^ 52 := by
      apply Nat.mod_eq_of_lt
      norm_num
      omega
    rw [this]
    simp only [beq_iff_eq]
    constructor
    · intro hfix
      have hm : a % 2 ^ 52 < 2 ^ 52 := Nat.mod_lt _ (by norm_num)
      omega
    · intro hz
      exact Nat.mod_eq_of_lt (by omega)
  · rw [A64.canonicalize_virtual_address, hmask48, land_two_pow_sub_one,
      A64.is_canonical_virtual_address, get_bits_eq_div_mod]
    have : a / 2 ^ 48 % 2 ^ (64 - 48) = a / 2 ^ 48 := by
      apply Nat.mod_eq_of_lt
      norm_num
      omega
    rw [this]
    simp only [beq_iff_eq]
    constructor
    · intro hfix
      have hm : a % 2 ^ 48 < 2 ^ 48 := Nat.mod_lt _ (by norm_num)
      omega
    · intro hz
      exact Nat.mod_eq_of_lt (by omega)
  · rw [A64.canonicalize_physical_address, hmask48, land_two_pow_sub_one,
      A64.is_canonical_physical_address, get_bits_eq_div_mod]
    have : a / 2 ^ 48 % 2 ^ (64 - 48) = a / 2 ^ 48 := by
      apply Nat.mod_eq_of_lt
      norm_num
      omega
    rw [this]
    simp only [beq_iff_eq]
    constructor
    · intro hfix
      have hm : a % 2 ^ 48 < 2 ^ 48 := Nat.mod_lt _ (by norm_num)
      omega
    · intro hz
      exact Nat.mod_eq_of_lt (by omega)

/-- Witness for C10 at the concrete input 0xFFFF800000001234. -/
theorem canonicalize_fixed_iff_canonical_witness :
    (X86.canonicalize_virtual_address 0xFFFF800000001234 = 0xFFFF800000001234 ↔
      X86.is_canonical_virtual_address 0xFFFF800000001234 = true) ∧
    (X86.canonicalize_physical_address 0xFFFF800000001234 = 0xFFFF800000001234 ↔
      X86.is_canonical_physical_address 0xFFFF800000001234 = true) ∧
    (A64.canonicalize_virtual_address 0xFFFF800000001234 = 0xFFFF800000001234 ↔
      A64.is_canonical_virtual_address 0xFFFF800000001234 = true) ∧
    (A64.canonicalize_physical_address 0xFFFF800000001234 = 0xFFFF800000001234 ↔
      A64.is_canonical_physical_address 0xFFFF800000001234 = true) :=
  canonicalize_fixed_iff_canonical 0xFFFF800000001234 (by norm_num)

/-!
Address-type operations from the implement_address macro in
src/src/memory.rs.  The validating constructor `new`, the canonicalizing
constructor `new_canonical`, and the manual Add/Sub of a usize offset go
through the architecture canonicalizer; the derive_more Add, Sub, BitAnd,
BitOr and BitXor between two addresses act on the raw usize field.
-/

/-- derive_more Add between two addresses: raw field-wise usize addition
(wrapping in release builds). -/
def address_derived_add (a b : Nat) : Nat := (a + b) % 2 ^ 64

/-- derive_more Sub between two addresses: raw field-wise usize subtraction
(wrapping in release builds). -/
def address_derived_sub (a b : Nat) : Nat := (a + 2 ^ 64 - b % 2 ^ 64) % 2 ^ 64

/-- derive_more BitAnd between two addresses. -/
def address_derived_and (a b : Nat) : Nat := a &&& b

/-- derive_more BitOr between two addresses. -/
def address_derived_or (a b : Nat) : Nat := a ||| b

/-- derive_more BitXor between two addresses. -/
def address_derived_xor (a b : Nat) : Nat := a ^^^ b

namespace X86

/-- VirtualAddress::new: succeeds only on canonical values. -/
def virtual_address_new (addr : Nat) : Option Nat :=
  if is_canonical_virtual_address addr then some addr else none

/-- VirtualAddress::new_canonical. -/
def virtual_address_new_canonical (addr : Nat) : Nat :=
  canonicalize_virtual_address addr

/-- impl Add of usize for VirtualAddress: saturating add then canonicalize. -/
def virtual_address_add_usize (a rhs : Nat) : Nat :=
  canonicalize_virtual_address (saturating_add a rhs)

/-- impl Sub of usize for VirtualAddress: saturating sub then canonicalize. -/
def virtual_address_sub_usize (a rhs : Nat) : Nat :=
  canonicalize_virtual_address (saturating_sub a rhs)

/-- PhysicalAddress::new. -/
def physical_address_new (addr : Nat) : Option Nat :=
  if is_canonical_physical_address addr then some addr else none

/-- PhysicalAddress::new_canonical. -/
def physical_address_new_canonical (addr : Nat) : Nat :=
  canonicalize_physical_address addr

/-- impl Add of usize for PhysicalAddress. -/
def physical_address_add_usize (a rhs : Nat) : Nat :=
  canonicalize_physical_address (saturating_add a rhs)

/-- impl Sub of usize for PhysicalAddress. -/
def physical_address_sub_usize (a rhs : Nat) : Nat :=
  canonicalize_physical_address (saturating_sub a rhs)

end X86

namespace A64

/-- VirtualAddress::new on aarch64. -/
def virtual_address_new (addr : Nat) : Option Nat :=
  if is_canonical_virtual_address addr then some addr else none

/-- VirtualAddress::new_canonical on aarch64. -/
def virtual_address_new_canonical (addr : Nat) : Nat :=
  canonicalize_virtual_address addr

/-- impl Add of usize for VirtualAddress on aarch64. -/
def virtual_address_add_usize (a rhs : Nat) : Nat :=
  canonicalize_virtual_address (saturating_add a rhs)

/-- impl Sub of usize for VirtualAddress on aarch64. -/
def virtual_address_sub_usize (a rhs : Nat) : Nat :=
  canonicalize_virtual_address (saturating_sub a rhs)

/-- PhysicalAddress::new on aarch64. -/
def physical_address_new (addr : Nat) : Option Nat :=
  if is_canonical_physical_address addr then some addr else none

/-- PhysicalAddress::new_canonical on aarch64. -/
def physical_address_new_canonical (addr : Nat) : Nat :=
  canonicalize_physical_address addr

/-- impl Add of usize for PhysicalAddress on aarch64. -/
def physical_address_add_usize (a rhs : Nat) : Nat :=
  canonicalize_physical_address (saturating_add a rhs)

/-- impl Sub of usize for PhysicalAddress on aarch64. -/
def physical_address_sub_usize (a rhs : Nat) : Nat :=
  canonicalize_physical_address (saturating_sub a rhs)

end A64

lemma shiftRight_land (a b k : Nat) : (a &&& b) >>> k = a >>> k &&& b >>> k := by
  apply Nat.eq_of_testBit_eq
  intro i
  simp [Nat.testBit_land]

lemma shiftRight_lor (a b k : Nat) : (a ||| b) >>> k = a >>> k ||| b >>> k := by
  apply Nat.eq_of_testBit_eq
  intro i
  simp [Nat.testBit_lor]

lemma shiftRight_lxor (a b k : Nat) : (a ^^^ b) >>> k = a >>> k ^^^ b >>> k := by
  apply Nat.eq_of_testBit_eq
  intro i
  simp [Nat.testBit_xor]

lemma X86.is_canonical_virtual_iff_hi (a : Nat) (h : a < 2 ^ 64) :
    X86.is_canonical_virtual_address a = true ↔
      a >>> 47 = 0 ∨ a >>> 47 = 0x1FFFF := by
  have hhi : a >>> 47 < 2 ^ 17 := by
    rw [Nat.shiftRight_eq_div_pow]
    omega
  rw [X86.is_canonical_virtual_address, get_bits]
  have hmask : (2 ^ (64 - 47) - 1 : Nat) = 2 ^ 17 - 1 := by norm_num
  rw [hmask, land_two_pow_sub_one, Nat.mod_eq_of_lt hhi]
  simp

lemma X86.is_canonical_physical_iff_lt52 (a : Nat) (h : a < 2 ^ 64) :
    X86.is_canonical_physical_address a = true ↔ a < 2 ^ 52 := by
  rw [X86.is_canonical_physical_address, get_bits_eq_div_mod]
  have : a / 2 ^ 52 % 2 ^ (64 - 52) = a / 2 ^ 52 := Nat.mod_eq_of_lt (by
    norm_num
    omega)
  rw [this]
  simp only [beq_iff_eq]
  omega

lemma A64.is_canonical_virtual_iff_lt (a : Nat) (h : a < 2 ^ 64) :
    A64.is_canonical_virtual_address a = true ↔ a < 2 ^ 48 := by
  rw [A64.is_canonical_virtual_address, get_bits_eq_div_mod]
  have : a / 2 ^ 48 % 2 ^ (64 - 48) = a / 2 ^ 48 := Nat.mod_eq_of_lt (by
    norm_num
    omega)
  rw [this]
  simp only [beq_iff_eq]
  omega

lemma A64.is_canonical_physical_iff_lt (a : Nat) (h : a < 2 ^ 64) :
    A64.is_canonical_physical_address a = true ↔ a < 2 ^ 48 := by
  rw [A64.is_canonical_physical_address, get_bits_eq_div_mod]
  have : a / 2 ^ 48 % 2 ^ (64 - 48) = a / 2 ^ 48 := Nat.mod_eq_of_lt (by
    norm_num
    omega)
  rw [this]
  simp only [beq_iff_eq]
  omega

lemma X86.canonicalize_virtual_canonical (a : Nat) :
    X86.is_canonical_virtual_address (X86.canonicalize_virtual_address a) = true := by
  rw [X86.canonicalize_virtual_eq a]
  have hlo : a % 2 ^ 48 < 2 ^ 48 := Nat.mod_lt _ (by norm_num)
  rcases Nat.lt_or_ge (a % 2 ^ 48) (2 ^ 47) with hc | hc
  · rw [if_pos hc, X86.is_canonical_virtual_iff_hi _ (by omega)]
    left
    rw [Nat.shiftRight_eq_div_pow]
    omega
  · rw [if_neg (by omega), X86.is_canonical_virtual_iff_hi _ (by omega)]
    right
    rw [Nat.shiftRight_eq_div_pow]
    omega

lemma X86.canonicalize_physical_canonical (a : Nat) :
    X86.is_canonical_physical_address (X86.canonicalize_physical_address a) = true := by
  have hmask52 : (0xFFFFFFFFFFFFF : Nat) = 2 ^ 52 - 1 := by norm_num
  rw [X86.canonicalize_physical_address, hmask52, land_two_pow_sub_one]
  have h52 : a % 2 ^ 52 < 2 ^ 52 := Nat.mod_lt _ (by norm_num)
  rw [X86.is_canonical_physical_iff_lt52 _ (by omega)]
  exact h52

lemma A64.canonicalize_virtual_mask_canonical (a : Nat) :
    A64.is_canonical_virtual_address (A64.canonicalize_virtual_address a) = true := by
  have hmask48 : (0xFFFFFFFFFFFF : Nat) = 2 ^ 48 - 1 := by norm_num
  rw [A64.canonicalize_virtual_address, hmask48, land_two_pow_sub_one]
  have h48 : a % 2 ^ 48 < 2 ^ 48 := Nat.mod_lt _ (by norm_num)
  rw [A64.is_canonical_virtual_iff_lt _ (by omega)]
  exact h48

lemma A64.canonicalize_physical_mask_canonical (a : Nat) :
    A64.is_canonical_physical_address (A64.canonicalize_physical_address a) = true := by
  have hmask48 : (0xFFFFFFFFFFFF : Nat) = 2 ^ 48 - 1 := by norm_num
  rw [A64.canonicalize_physical_address, hmask48, land_two_pow_sub_one]
  have h48 : a % 2 ^ 48 < 2 ^ 48 := Nat.mod_lt _ (by norm_num)
  rw [A64.is_canonical_physical_iff_lt _ (by omega)]
  exact h48

/-- Claim C8, counterexample: the derive_more Add between two canonical
x86_64 virtual addresses can produce a non-canonical value.
0x400000000000 is canonical, but its derived sum with itself, 2 ^ 47, is
not (bit 47 set, bits 48..64 clear) — the derived address arithmetic acts
on the raw usize field without re-canonicalizing. -/
theorem derived_add_breaks_canonicity :
    X86.is_canonical_virtual_address 0x400000000000 = true ∧
    address_derived_add 0x400000000000 0x400000000000 = 0x800000000000 ∧
    X86.is_canonical_virtual_address 0x800000000000 = false := by
  refine ⟨by decide, by decide, by decide⟩

/-- Claim C8 (amended): the validating and canonicalizing constructors,
add/sub of a usize offset, and the derived bitwise and/or/xor between two
canonical addresses all yield canonical values, on each of the four
architecture/type pairs; the derived add and sub between two addresses are
excluded, as they act on the raw usize values and can produce
non-canonical results. -/
theorem address_ops_preserve_canonicity (a b n : Nat)
    (ha : a < 2 ^ 64) (hb : b < 2 ^ 64) :
    (∀ v, X86.virtual_address_new a = some v →
      X86.is_canonical_virtual_address v = true) ∧
    X86.is_canonical_virtual_address (X86.virtual_address_new_canonical a) = true ∧
    X86.is_canonical_virtual_address (X86.virtual_address_add_usize a n) = true ∧
    X86.is_canonical_virtual_address (X86.virtual_address_sub_usize a n) = true ∧
    (X86.is_canonical_virtual_address a = true →
      X86.is_canonical_virtual_address b = true →
      X86.is_canonical_virtual_address (address_derived_and a b) = true ∧
      X86.is_canonical_virtual_address (address_derived_or a b) = true ∧
      X86.is_canonical_virtual_address (address_derived_xor a b) = true) ∧
    (∀ v, X86.physical_address_new a = some v →
      X86.is_canonical_physical_address v = true) ∧
    X86.is_canonical_physical_address (X86.physical_address_new_canonical a) = true ∧
    X86.is_canonical_physical_address (X86.physical_address_add_usize a n) = true ∧
    X86.is_canonical_physical_address (X86.physical_address_sub_usize a n) = true ∧
    (X86.is_canonical_physical_address a = true →
      X86.is_canonical_physical_address b = true →
      X86.is_canonical_physical_address (address_derived_and a b) = true ∧
      X86.is_canonical_physical_address (address_derived_or a b) = true ∧
      X86.is_canonical_physical_address (address_derived_xor a b) = true) ∧
    (∀ v, A64.virtual_address_new a = some v →
      A64.is_canonical_virtual_address v = true) ∧
    A64.is_canonical_virtual_address (A64.virtual_address_new_canonical a) = true ∧
    A64.is_canonical_virtual_address (A64.virtual_address_add_usize a n) = true ∧
    A64.is_canonical_virtual_address (A64.virtual_address_sub_usize a n) = true ∧
    (A64.is_canonical_virtual_address a = true →
      A64.is_canonical_virtual_address b = true →
      A64.is_canonical_virtual_address (address_derived_and a b) = true ∧
      A64.is_canonical_virtual_address (address_derived_or a b) = true ∧
      A64.is_canonical_virtual_address (address_derived_xor a b) = true) ∧
    (∀ v, A64.physical_address_new a = some v →
      A64.is_canonical_physical_address v = true) ∧
    A64.is_canonical_physical_address (A64.physical_address_new_canonical a) = true ∧
    A64.is_canonical_physical_address (A64.physical_address_add_usize a n) = true ∧
    A64.is_canonical_physical_address (A64.physical_address_sub_usize a n) = true ∧
    (A64.is_canonical_physical_address a = true →
      A64.is_canonical_physical_address b = true →
      A64.is_canonical_physical_address (address_derived_and a b) = true ∧
      A64.is_canonical_physical_address (address_derived_or a b) = true ∧
      A64.is_canonical_physical_address (address_derived_xor a b) = true) := by
  have hand : a &&& b < 2 ^ 64 := Nat.and_lt_two_pow a hb
  have hor : a ||| b < 2 ^ 64 := Nat.or_lt_two_pow ha hb
  have hxor : a ^^^ b < 2 ^ 64 := Nat.xor_lt_two_pow ha hb
  refine ⟨?_, X86.canonicalize_virtual_canonical a,
    X86.canonicalize_virtual_canonical _, X86.canonicalize_virtual_canonical _,
    ?_, ?_, X86.canonicalize_physical_canonical a,
    X86.canonicalize_physical_canonical _, X86.canonicalize_physical_canonical _,
    ?_, ?_, A64.canonicalize_virtual_mask_canonical a,
    A64.canonicalize_virtual_mask_canonical _, A64.canonicalize_virtual_mask_canonical _,
    ?_, ?_, A64.canonicalize_physical_mask_canonical a,
    A64.canonicalize_physical_mask_canonical _, A64.canonicalize_physical_mask_canonical _,
    ?_⟩
  · intro v hv
    rw [X86.virtual_address_new] at hv
    by_cases hc : X86.is_canonical_virtual_address a = true
    · rw [if_pos hc] at hv
      cases hv
      exact hc
    · simp [hc] at hv
  · intro hca hcb
    rw [X86.is_canonical_virtual_iff_hi a ha] at hca
    rw [X86.is_canonical_virtual_iff_hi b hb] at hcb
    refine ⟨?_, ?_, ?_⟩
    · show X86.is_canonical_virtual_address (a &&& b) = true
      rw [X86.is_canonical_virtual_iff_hi _ hand, shiftRight_land]
      rcases hca with h1 | h1 <;> rcases hcb with h2 | h2 <;>
        rw [h1, h2] <;> simp
    · show X86.is_canonical_virtual_address (a ||| b) = true
      rw [X86.is_canonical_virtual_iff_hi _ hor, shiftRight_lor]
      rcases hca with h1 | h1 <;> rcases hcb with h2 | h2 <;>
        rw [h1, h2] <;> simp
    · show X86.is_canonical_virtual_address (a ^^^ b) = true
      rw [X86.is_canonical_virtual_iff_hi _ hxor, shiftRight_lxor]
      rcases hca with h1 | h1 <;> rcases hcb with h2 | h2 <;>
        rw [h1, h2] <;> simp
  · intro v hv
    rw [X86.physical_address_new] at hv
    by_cases hc : X86.is_canonical_physical_address a = true
    · rw [if_pos hc] at hv
      cases hv
      exact hc
    · simp [hc] at hv
  · intro hca hcb
    rw [X86.is_canonical_physical_iff_lt52 a ha] at hca
    rw [X86.is_canonical_physical_iff_lt52 b hb] at hcb
    exact ⟨by
      rw [address_derived_and, X86.is_canonical_physical_iff_lt52 _ hand]
      exact Nat.and_lt_two_pow a hcb, by
      rw [address_derived_or, X86.is_canonical_physical_iff_lt52 _ hor]
      exact Nat.or_lt_two_pow hca hcb, by
      rw [address_derived_xor, X86.is_canonical_physical_iff_lt52 _ hxor]
      exact Nat.xor_lt_two_pow hca hcb⟩
  · intro v hv
    rw [A64.virtual_address_new] at hv
    by_cases hc : A64.is_canonical_virtual_address a = true
    · rw [if_pos hc] at hv
      cases hv
      exact hc
    · simp [hc] at hv
  · intro hca hcb
    rw [A64.is_canonical_virtual_iff_lt a ha] at hca
    rw [A64.is_canonical_virtual_iff_lt b hb] at hcb
    exact ⟨by
      rw [address_derived_and, A64.is_canonical_virtual_iff_lt _ hand]
      exact Nat.and_lt_two_pow a hcb, by
      rw [address_derived_or, A64.is_canonical_virtual_iff_lt _ hor]
      exact Nat.or_lt_two_pow hca hcb, by
      rw [address_derived_xor, A64.is_canonical_virtual_iff_lt _ hxor]
      exact Nat.xor_lt_two_pow hca hcb⟩
  · intro v hv
    rw [A64.physical_address_new] at hv
    by_cases hc : A64.is_canonical_physical_address a = true
    · rw [if_pos hc] at hv
      cases hv
      exact hc
    · simp [hc] at hv
  · intro hca hcb
    rw [A64.is_canonical_physical_iff_lt a ha] at hca
    rw [A64.is_canonical_physical_iff_lt b hb] at hcb
    exact ⟨by
      rw [address_derived_and, A64.is_canonical_physical_iff_lt _ hand]
      exact Nat.and_lt_two_pow a hcb, by
      rw [address_derived_or, A64.is_canonical_physical_iff_lt _ hor]
      exact Nat.or_lt_two_pow hca hcb, by
      rw [address_derived_xor, A64.is_canonical_physical_iff_lt _ hxor]
      exact Nat.xor_lt_two_pow hca hcb⟩

/-- Witness for C8 at a = 0x2000, b = 0x3000, n = 0x500. -/
theorem address_ops_preserve_canonicity_witness :
    X86.is_canonical_virtual_address
      (X86.virtual_address_add_usize 0x2000 0x500) = true ∧
    X86.is_canonical_virtual_address
      (address_derived_xor 0x2000 0x3000) = true := by
  have h := address_ops_preserve_canonicity 0x2000 0x3000 0x500
    (by norm_num) (by norm_num)
  exact ⟨h.2.2.1, (h.2.2.2.2.1 (by decide) (by decide)).2.2⟩

/-!
The bump frame allocator of src/src/memory.rs, instantiated with the
x86_64 address canonicalization (the arch in use fixes `imp`).  A `Frame`
is represented by its number; `MemoryDescriptor` carries the firmware type
tag, starting physical address and page count.
-/

/-- MemoryType::CONVENTIONAL. -/
def CONVENTIONAL : Nat := 7

/-- A firmware memory-map descriptor: type tag, phys_start, page_count. -/
structure MemoryDescriptor where
  ty : Nat
  phys_start : Nat
  page_count : Nat
deriving DecidableEq

/-- Frame::containing_address. -/
def frame_containing_address (addr : Nat) : Nat := addr / PAGE_SIZE

/-- Frame + usize: saturates at MAX_PAGE_NUMBER. -/
def frame_add (n k : Nat) : Nat := min MAX_PAGE_NUMBER (saturating_add n k)

/-- start_frame of a descriptor: the frame containing its canonicalized
starting physical address. -/
def descriptor_start_frame (d : MemoryDescriptor) : Nat :=
  frame_containing_address (X86.canonicalize_physical_address d.phys_start)

/-- end_addr = start_addr + page_count * PAGE_SIZE (usize multiplication
wraps; PhysicalAddress addition saturates then canonicalizes). -/
def descriptor_end_addr (d : MemoryDescriptor) : Nat :=
  X86.physical_address_add_usize (X86.canonicalize_physical_address d.phys_start)
    (d.page_count * PAGE_SIZE % 2 ^ 64)

/-- end_frame = Frame::containing_address(end_addr - 1): the inclusive end
frame of the descriptor. -/
def descriptor_end_frame (d : MemoryDescriptor) : Nat :=
  frame_containing_address (X86.physical_address_sub_usize (descriptor_end_addr d) 1)

/-- FrameAllocator::allocate_frame_from_descriptor: fast-forward the
watermark to the descriptor's start frame, then hand out the watermark
frame while it is strictly below the end frame.  Returns the optional
frame and the updated watermark (the fast-forward persists on failure). -/
def allocate_frame_from_descriptor (d : MemoryDescriptor) (next_frame : Nat) :
    Option Nat × Nat :=
  let start_frame := descriptor_start_frame d
  let end_frame := descriptor_end_frame d
  let next_frame := if next_frame < start_frame then start_frame else next_frame
  if next_frame < end_frame then (some next_frame, frame_add next_frame 1)
  else (none, next_frame)

/-- The FrameAllocator state: the original memory map (kept for len and
max_phys_addr), the remaining iterator, the cached current descriptor and
the next-frame watermark. -/
structure FrameAllocator where
  original : List MemoryDescriptor
  memory_map : List MemoryDescriptor
  current_descriptor : Option MemoryDescriptor
  next_frame : Nat
deriving DecidableEq

/-- FrameAllocator::new_starting_at. -/
def FrameAllocator.new_starting_at (frame : Nat)
    (memory_map : List MemoryDescriptor) : FrameAllocator :=
  ⟨memory_map, memory_map, none, frame⟩

/-- FrameAllocator::new: skips frames below physical 0x10000. -/
def FrameAllocator.new (memory_map : List MemoryDescriptor) : FrameAllocator :=
  FrameAllocator.new_starting_at
    (frame_containing_address (X86.canonicalize_physical_address 0x10000)) memory_map

/-- The while-let loop of allocate_frame: walk the remaining iterator,
skip non-conventional descriptors, and return the first frame yielded by
a conventional descriptor, caching that descriptor.  Returns the result,
the remaining iterator, the new cache and the new watermark. -/
def allocate_frame_loop :
    List MemoryDescriptor → Nat →
      Option Nat × List MemoryDescriptor × Option MemoryDescriptor × Nat
  | [], n => (none, [], none, n)
  | d :: rest, n =>
    if d.ty = CONVENTIONAL then
      match allocate_frame_from_descriptor d n with
      | (some f, n2) => (some f, rest, some d, n2)
      | (none, n2) => allocate_frame_loop rest n2
    else allocate_frame_loop rest n

/-- FrameAllocator::allocate_frame. -/
def FrameAllocator.allocate_frame (s : FrameAllocator) : Option Nat × FrameAllocator :=
  match s.current_descriptor with
  | some d =>
    match allocate_frame_from_descriptor d s.next_frame with
    | (some f, n2) => (some f, { s with next_frame := n2 })
    | (none, n2) =>
      match allocate_frame_loop s.memory_map n2 with
      | (r, m2, c2, n3) =>
        (r, { s with memory_map := m2, current_descriptor := c2, next_frame := n3 })
  | none =>
    match allocate_frame_loop s.memory_map s.next_frame with
    | (r, m2, c2, n3) =>
      (r, { s with memory_map := m2, current_descriptor := c2, next_frame := n3 })

/-- Run k successive allocate_frame calls, collecting the results. -/
def allocate_frames_run : Nat → FrameAllocator → List (Option Nat) × FrameAllocator
  | 0, s => ([], s)
  | k + 1, s =>
    let p := FrameAllocator.allocate_frame s
    let q := allocate_frames_run k p.2
    (p.1 :: q.1, q.2)

/-- The sequence of results of n allocate_frame calls on a freshly
constructed allocator. -/
def allocation_trace (map : List MemoryDescriptor) (n : Nat) : List (Option Nat) :=
  (allocate_frames_run n (FrameAllocator.new map)).1

lemma canonicalize_physical_eq_mod (a : Nat) :
    X86.canonicalize_physical_address a = a % 2 ^ 52 := by
  have hmask52 : (0xFFFFFFFFFFFFF : Nat) = 2 ^ 52 - 1 := by norm_num
  rw [X86.canonicalize_physical_address, hmask52, land_two_pow_sub_one]

lemma descriptor_end_frame_lt (d : MemoryDescriptor) :
    descriptor_end_frame d < 2 ^ 40 := by
  rw [descriptor_end_frame, X86.physical_address_sub_usize,
    canonicalize_physical_eq_mod, frame_containing_address, PAGE_SIZE]
  have : (saturating_sub (descriptor_end_addr d) 1) % 2 ^ 52 < 2 ^ 52 :=
    Nat.mod_lt _ (by norm_num)
  omega

lemma descriptor_start_frame_lt (d : MemoryDescriptor) :
    descriptor_start_frame d < 2 ^ 40 := by
  rw [descriptor_start_frame, canonicalize_physical_eq_mod,
    frame_containing_address, PAGE_SIZE]
  have : d.phys_start % 2 ^ 52 < 2 ^ 52 := Nat.mod_lt _ (by norm_num)
  omega

lemma allocate_frame_from_descriptor_eq (d : MemoryDescriptor) (n : Nat) :
    allocate_frame_from_descriptor d n =
      if (if n < descriptor_start_frame d then descriptor_start_frame d else n) <
          descriptor_end_frame d then
        (some (if n < descriptor_start_frame d then descriptor_start_frame d else n),
          frame_add (if n < descriptor_start_frame d then descriptor_start_frame d else n) 1)
      else (none, if n < descriptor_start_frame d then descriptor_start_frame d else n) :=
  rfl

lemma allocate_frame_from_descriptor_some (d : MemoryDescriptor) (n f n2 : Nat)
    (h : allocate_frame_from_descriptor d n = (some f, n2)) :
    n ≤ f ∧ descriptor_start_frame d ≤ f ∧ f < descriptor_end_frame d ∧
      n2 = f + 1 := by
  have hend := descriptor_end_frame_lt d
  have hstart := descriptor_start_frame_lt d
  rw [allocate_frame_from_descriptor_eq] at h
  rcases Nat.lt_or_ge n (descriptor_start_frame d) with h1 | h1 <;>
    simp only [if_pos h1, if_neg (Nat.not_lt.2 h1)] at h
  · rcases Nat.lt_or_ge (descriptor_start_frame d) (descriptor_end_frame d) with h2 | h2
    · rw [if_pos h2] at h
      simp only [Prod.mk.injEq, Option.some.injEq] at h
      obtain ⟨hf, hn2⟩ := h
      subst hf
      subst hn2
      refine ⟨by omega, by omega, h2, ?_⟩
      simp only [frame_add, saturating_add, MAX_PAGE_NUMBER, USIZE_MAX, PAGE_SIZE]
      omega
    · rw [if_neg (by omega)] at h
      simp at h
  · rcases Nat.lt_or_ge n (descriptor_end_frame d) with h2 | h2
    · rw [if_pos h2] at h
      simp only [Prod.mk.injEq, Option.some.injEq] at h
      obtain ⟨hf, hn2⟩ := h
      subst hf
      subst hn2
      refine ⟨Nat.le_refl _, h1, h2, ?_⟩
      simp only [frame_add, saturating_add, MAX_PAGE_NUMBER, USIZE_MAX, PAGE_SIZE]
      omega
    · rw [if_neg (by omega)] at h
      simp at h

lemma allocate_frame_from_descriptor_none (d : MemoryDescriptor) (n n2 : Nat)
    (h : allocate_frame_from_descriptor d n = (none, n2)) :
    n2 = if n < descriptor_start_frame d then descriptor_start_frame d else n := by
  rw [allocate_frame_from_descriptor_eq] at h
  rcases Nat.lt_or_ge (if n < descriptor_start_frame d then descriptor_start_frame d else n)
      (descriptor_end_frame d) with h2 | h2
  · rw [if_pos h2] at h
    simp at h
  · rw [if_neg (by omega)] at h
    simp only [Prod.mk.injEq] at h
    exact h.2.symm

lemma allocate_frame_from_descriptor_monotone (d : MemoryDescriptor) (n n2 : Nat) :
    ∀ ro : Option Nat, allocate_frame_from_descriptor d n = (ro, n2) → n ≤ n2 := by
  intro ro h
  cases ro with
  | some f =>
    obtain ⟨h1, _, _, h4⟩ := allocate_frame_from_descriptor_some d n f n2 h
    omega
  | none =>
    have := allocate_frame_from_descriptor_none d n n2 h
    rcases Nat.lt_or_ge n (descriptor_start_frame d) with h1 | h1 <;>
      simp only [if_pos h1, if_neg (Nat.not_lt.2 h1)] at this <;> omega

lemma allocate_frame_loop_monotone (m : List MemoryDescriptor) :
    ∀ n r m2 c2 n3, allocate_frame_loop m n = (r, m2, c2, n3) → n ≤ n3 := by
  induction m with
  | nil =>
    intro n r m2 c2 n3 h
    rw [allocate_frame_loop] at h
    simp only [Prod.mk.injEq] at h
    omega
  | cons d rest ih =>
    intro n r m2 c2 n3 h
    rw [allocate_frame_loop] at h
    by_cases hc : d.ty = CONVENTIONAL
    · rw [if_pos hc] at h
      rcases hr : allocate_frame_from_descriptor d n with ⟨ro, nmid⟩
      rw [hr] at h
      cases ro with
      | some f =>
        simp only [Prod.mk.injEq] at h
        have := allocate_frame_from_descriptor_monotone d n nmid (some f) hr
        omega
      | none =>
        have h1 := allocate_frame_from_descriptor_monotone d n nmid none hr
        have h2 := ih nmid r m2 c2 n3 h
        omega
    · rw [if_neg hc] at h
      exact ih n r m2 c2 n3 h

lemma allocate_frame_loop_some (m : List MemoryDescriptor) :
    ∀ n f m2 c2 n3, allocate_frame_loop m n = (some f, m2, c2, n3) →
      n ≤ f ∧ n3 = f + 1 ∧
        ∃ d ∈ m, d.ty = CONVENTIONAL ∧
          descriptor_start_frame d ≤ f ∧ f < descriptor_end_frame d ∧
          c2 = some d := by
  induction m with
  | nil =>
    intro n f m2 c2 n3 h
    rw [allocate_frame_loop] at h
    simp at h
  | cons d rest ih =>
    intro n f m2 c2 n3 h
    rw [allocate_frame_loop] at h
    by_cases hc : d.ty = CONVENTIONAL
    · rw [if_pos hc] at h
      rcases hr : allocate_frame_from_descriptor d n with ⟨ro, nmid⟩
      rw [hr] at h
      cases ro with
      | some g =>
        simp only [Prod.mk.injEq, Option.some.injEq] at h
        obtain ⟨hgf, _, hcd, hn3⟩ := h
        rw [hgf] at hr
        obtain ⟨h1, h2, h3, h4⟩ := allocate_frame_from_descriptor_some d n f nmid hr
        exact ⟨h1, by omega, d, List.mem_cons_self d rest, hc, h2, h3, hcd.symm⟩
      | none =>
        have h1 := allocate_frame_from_descriptor_monotone d n nmid none hr
        obtain ⟨h2, h3, d2, hd2, hket⟩ := ih nmid f m2 c2 n3 h
        exact ⟨by omega, h3, d2, List.mem_cons_of_mem d hd2, hket⟩
    · rw [if_neg hc] at h
      obtain ⟨h2, h3, d2, hd2, hket⟩ := ih n f m2 c2 n3 h
      exact ⟨h2, h3, d2, List.mem_cons_of_mem d hd2, hket⟩

lemma allocate_frame_loop_state (m : List MemoryDescriptor) :
    ∀ n r m2 c2 n3, allocate_frame_loop m n = (r, m2, c2, n3) →
      (∀ d ∈ m2, d ∈ m) ∧
      (c2 = none ∨ ∃ d ∈ m, d.ty = CONVENTIONAL ∧ c2 = some d) := by
  induction m with
  | nil =>
    intro n r m2 c2 n3 h
    rw [allocate_frame_loop] at h
    simp only [Prod.mk.injEq] at h
    obtain ⟨-, hm, hcc, -⟩ := h
    subst hm
    exact ⟨by simp, Or.inl hcc.symm⟩
  | cons d rest ih =>
    intro n r m2 c2 n3 h
    rw [allocate_frame_loop] at h
    by_cases hc : d.ty = CONVENTIONAL
    · rw [if_pos hc] at h
      rcases hr : allocate_frame_from_descriptor d n with ⟨ro, nmid⟩
      rw [hr] at h
      cases ro with
      | some g =>
        simp only [Prod.mk.injEq] at h
        obtain ⟨-, hm, hcc, -⟩ := h
        subst hm
        refine ⟨fun e he => List.mem_cons_of_mem d he, ?_⟩
        exact Or.inr ⟨d, List.mem_cons_self d rest, hc, hcc.symm⟩
      | none =>
        obtain ⟨hsub, hcache⟩ := ih nmid r m2 c2 n3 h
        refine ⟨fun e he => List.mem_cons_of_mem d (hsub e he), ?_⟩
        rcases hcache with hn | ⟨d2, hd2, hc2, he⟩
        · exact Or.inl hn
        · exact Or.inr ⟨d2, List.mem_cons_of_mem d hd2, hc2, he⟩
    · rw [if_neg hc] at h
      obtain ⟨hsub, hcache⟩ := ih n r m2 c2 n3 h
      refine ⟨fun e he => List.mem_cons_of_mem d (hsub e he), ?_⟩
      rcases hcache with hn | ⟨d2, hd2, hc2, he⟩
      · exact Or.inl hn
      · exact Or.inr ⟨d2, List.mem_cons_of_mem d hd2, hc2, he⟩

/-- The inductive invariant of a frame-allocator state: the watermark is
at or above the low-memory frame 0x10, the cached descriptor (when
present) is a conventional descriptor of the original map, and the
remaining iterator only holds descriptors of the original map. -/
def FrameAllocatorInv (map : List MemoryDescriptor) (s : FrameAllocator) : Prop :=
  0x10 ≤ s.next_frame ∧
  (∀ d, s.current_descriptor = some d → d.ty = CONVENTIONAL ∧ d ∈ map) ∧
  (∀ d ∈ s.memory_map, d ∈ map)

lemma frame_allocator_inv_new (map : List MemoryDescriptor) :
    FrameAllocatorInv map (FrameAllocator.new map) := by
  refine ⟨?_, ?_, ?_⟩
  · show 0x10 ≤ frame_containing_address (X86.canonicalize_physical_address 0x10000)
    decide
  · intro d hd
    simp [FrameAllocator.new, FrameAllocator.new_starting_at] at hd
  · intro d hd
    exact hd

lemma allocate_frame_cached_some (s : FrameAllocator) (d : MemoryDescriptor)
    (f n2 : Nat) (hcur : s.current_descriptor = some d)
    (hr : allocate_frame_from_descriptor d s.next_frame = (some f, n2)) :
    s.allocate_frame = (some f, { s with next_frame := n2 }) := by
  simp only [FrameAllocator.allocate_frame, hcur, hr]

lemma allocate_frame_cached_none (s : FrameAllocator) (d : MemoryDescriptor)
    (n2 : Nat) (hcur : s.current_descriptor = some d)
    (hr : allocate_frame_from_descriptor d s.next_frame = (none, n2)) :
    s.allocate_frame =
      ((allocate_frame_loop s.memory_map n2).1,
        { s with
          memory_map := (allocate_frame_loop s.memory_map n2).2.1,
          current_descriptor := (allocate_frame_loop s.memory_map n2).2.2.1,
          next_frame := (allocate_frame_loop s.memory_map n2).2.2.2 }) := by
  simp only [FrameAllocator.allocate_frame, hcur, hr]

lemma allocate_frame_uncached (s : FrameAllocator)
    (hcur : s.current_descriptor = none) :
    s.allocate_frame =
      ((allocate_frame_loop s.memory_map s.next_frame).1,
        { s with
          memory_map := (allocate_frame_loop s.memory_map s.next_frame).2.1,
          current_descriptor :=
            (allocate_frame_loop s.memory_map s.next_frame).2.2.1,
          next_frame := (allocate_frame_loop s.memory_map s.next_frame).2.2.2 }) := by
  simp only [FrameAllocator.allocate_frame, hcur]

lemma allocate_frame_monotone (s : FrameAllocator) (r : Option Nat)
    (s2 : FrameAllocator) (h : s.allocate_frame = (r, s2)) :
    s.next_frame ≤ s2.next_frame := by
  rcases hcur : s.current_descriptor with _ | d
  · rw [allocate_frame_uncached s hcur] at h
    rcases hl : allocate_frame_loop s.memory_map s.next_frame with ⟨r0, m2, c2, n3⟩
    rw [hl] at h
    simp only [Prod.mk.injEq] at h
    rw [← h.2]
    exact allocate_frame_loop_monotone s.memory_map s.next_frame r0 m2 c2 n3 hl
  · rcases hr : allocate_frame_from_descriptor d s.next_frame with ⟨ro, nmid⟩
    cases ro with
    | some f =>
      rw [allocate_frame_cached_some s d f nmid hcur hr] at h
      simp only [Prod.mk.injEq] at h
      rw [← h.2]
      exact allocate_frame_from_descriptor_monotone d s.next_frame nmid (some f) hr
    | none =>
      rw [allocate_frame_cached_none s d nmid hcur hr] at h
      rcases hl : allocate_frame_loop s.memory_map nmid with ⟨r0, m2, c2, n3⟩
      rw [hl] at h
      simp only [Prod.mk.injEq] at h
      rw [← h.2]
      have h1 := allocate_frame_from_descriptor_monotone d s.next_frame nmid none hr
      have h2 := allocate_frame_loop_monotone s.memory_map nmid r0 m2 c2 n3 hl
      show s.next_frame ≤ n3
      omega

lemma allocate_frame_some_spec (map : List MemoryDescriptor) (s : FrameAllocator)
    (f : Nat) (s2 : FrameAllocator) (hInv : FrameAllocatorInv map s)
    (h : s.allocate_frame = (some f, s2)) :
    s.next_frame ≤ f ∧ s2.next_frame = f + 1 ∧
      ∃ d ∈ map, d.ty = CONVENTIONAL ∧
        descriptor_start_frame d ≤ f ∧ f < descriptor_end_frame d := by
  rcases hcur : s.current_descriptor with _ | d
  · rw [allocate_frame_uncached s hcur] at h
    rcases hl : allocate_frame_loop s.memory_map s.next_frame with ⟨r0, m2, c2, n3⟩
    rw [hl] at h
    simp only [Prod.mk.injEq] at h
    obtain ⟨hr0, hs2⟩ := h
    subst hr0
    obtain ⟨h1, h2, d2, hd2, hconv, h3, h4, -⟩ :=
      allocate_frame_loop_some s.memory_map s.next_frame f m2 c2 n3 hl
    refine ⟨h1, ?_, d2, hInv.2.2 d2 hd2, hconv, h3, h4⟩
    rw [← hs2]
    exact h2
  · rcases hr : allocate_frame_from_descriptor d s.next_frame with ⟨ro, nmid⟩
    cases ro with
    | some g =>
      rw [allocate_frame_cached_some s d g nmid hcur hr] at h
      simp only [Prod.mk.injEq, Option.some.injEq] at h
      obtain ⟨hgf, hs2⟩ := h
      rw [hgf] at hr
      obtain ⟨h1, h2, h3, h4⟩ :=
        allocate_frame_from_descriptor_some d s.next_frame f nmid hr
      obtain ⟨hconv, hmem⟩ := hInv.2.1 d hcur
      refine ⟨h1, ?_, d, hmem, hconv, h2, h3⟩
      rw [← hs2]
      exact h4
    | none =>
      rw [allocate_frame_cached_none s d nmid hcur hr] at h
      rcases hl : allocate_frame_loop s.memory_map nmid with ⟨r0, m2, c2, n3⟩
      rw [hl] at h
      simp only [Prod.mk.injEq] at h
      obtain ⟨hr0, hs2⟩ := h
      subst hr0
      have hmono := allocate_frame_from_descriptor_monotone d s.next_frame nmid none hr
      obtain ⟨h1, h2, d2, hd2, hconv, h3, h4, -⟩ :=
        allocate_frame_loop_some s.memory_map nmid f m2 c2 n3 hl
      refine ⟨by omega, ?_, d2, hInv.2.2 d2 hd2, hconv, h3, h4⟩
      rw [← hs2]
      exact h2

lemma allocate_frame_inv (map : List MemoryDescriptor) (s : FrameAllocator)
    (r : Option Nat) (s2 : FrameAllocator) (hInv : FrameAllocatorInv map s)
    (h : s.allocate_frame = (r, s2)) : FrameAllocatorInv map s2 := by
  have hmono := allocate_frame_monotone s r s2 h
  have hnext : 0x10 ≤ s2.next_frame := Nat.le_trans hInv.1 hmono
  rcases hcur : s.current_descriptor with _ | d
  · rw [allocate_frame_uncached s hcur] at h
    rcases hl : allocate_frame_loop s.memory_map s.next_frame with ⟨r0, m2, c2, n3⟩
    rw [hl] at h
    simp only [Prod.mk.injEq] at h
    obtain ⟨-, hs2⟩ := h
    obtain ⟨hsub, hcache⟩ :=
      allocate_frame_loop_state s.memory_map s.next_frame r0 m2 c2 n3 hl
    subst hs2
    refine ⟨hnext, ?_, ?_⟩
    · intro e he
      rcases hcache with hn | ⟨d2, hd2, hc2, heq⟩
      · rw [show c2 = none from hn] at he
        exact absurd he (by simp)
      · rw [show c2 = some d2 from heq] at he
        cases he
        exact ⟨hc2, hInv.2.2 _ hd2⟩
    · intro e he
      exact hInv.2.2 e (hsub e he)
  · rcases hr : allocate_frame_from_descriptor d s.next_frame with ⟨ro, nmid⟩
    cases ro with
    | some g =>
      rw [allocate_frame_cached_some s d g nmid hcur hr] at h
      simp only [Prod.mk.injEq] at h
      obtain ⟨-, hs2⟩ := h
      subst hs2
      refine ⟨hnext, ?_, ?_⟩
      · intro e he
        rw [show ({ s with next_frame := nmid } :
            FrameAllocator).current_descriptor = s.current_descriptor from rfl,
          hcur] at he
        cases he
        exact hInv.2.1 d hcur
      · intro e he
        exact hInv.2.2 e he
    | none =>
      rw [allocate_frame_cached_none s d nmid hcur hr] at h
      rcases hl : allocate_frame_loop s.memory_map nmid with ⟨r0, m2, c2, n3⟩
      rw [hl] at h
      simp only [Prod.mk.injEq] at h
      obtain ⟨-, hs2⟩ := h
      obtain ⟨hsub, hcache⟩ :=
        allocate_frame_loop_state s.memory_map nmid r0 m2 c2 n3 hl
      subst hs2
      refine ⟨hnext, ?_, ?_⟩
      · intro e he
        rcases hcache with hn | ⟨d2, hd2, hc2, heq⟩
        · rw [show c2 = none from hn] at he
          exact absurd he (by simp)
        · rw [show c2 = some d2 from heq] at he
          cases he
          exact ⟨hc2, hInv.2.2 _ hd2⟩
      · intro e he
        exact hInv.2.2 e (hsub e he)

lemma allocate_frames_run_succ (k : Nat) (s : FrameAllocator) :
    allocate_frames_run (k + 1) s =
      (s.allocate_frame.1 :: (allocate_frames_run k s.allocate_frame.2).1,
        (allocate_frames_run k s.allocate_frame.2).2) := rfl

lemma run_get_lower (map : List MemoryDescriptor) :
    ∀ k (s : FrameAllocator) i f, FrameAllocatorInv map s →
      (allocate_frames_run k s).1.get? i = some (some f) →
      s.next_frame ≤ f := by
  intro k
  induction k with
  | zero =>
    intro s i f _ h
    simp [allocate_frames_run] at h
  | succ k ih =>
    intro s i f hInv h
    rw [allocate_frames_run_succ] at h
    rcases hp : s.allocate_frame with ⟨r, s2⟩
    rw [hp] at h
    cases i with
    | zero =>
      simp only [List.get?_cons_zero, Option.some.injEq] at h
      subst h
      exact (allocate_frame_some_spec map s f s2 hInv hp).1
    | succ i =>
      simp only [List.get?_cons_succ] at h
      have hInv2 := allocate_frame_inv map s r s2 hInv hp
      have := ih s2 i f hInv2 h
      have hmono := allocate_frame_monotone s r s2 hp
      omega

lemma run_get_props (map : List MemoryDescriptor) :
    ∀ k (s : FrameAllocator) i f, FrameAllocatorInv map s →
      (allocate_frames_run k s).1.get? i = some (some f) →
      ∃ d ∈ map, d.ty = CONVENTIONAL ∧
        descriptor_start_frame d ≤ f ∧ f < descriptor_end_frame d := by
  intro k
  induction k with
  | zero =>
    intro s i f _ h
    simp [allocate_frames_run] at h
  | succ k ih =>
    intro s i f hInv h
    rw [allocate_frames_run_succ] at h
    rcases hp : s.allocate_frame with ⟨r, s2⟩
    rw [hp] at h
    cases i with
    | zero =>
      simp only [List.get?_cons_zero, Option.some.injEq] at h
      subst h
      exact (allocate_frame_some_spec map s f s2 hInv hp).2.2
    | succ i =>
      simp only [List.get?_cons_succ] at h
      exact ih s2 i f (allocate_frame_inv map s r s2 hInv hp) h

lemma run_get_strict (map : List MemoryDescriptor) :
    ∀ k (s : FrameAllocator) i j fi fj, FrameAllocatorInv map s → i < j →
      (allocate_frames_run k s).1.get? i = some (some fi) →
      (allocate_frames_run k s).1.get? j = some (some fj) →
      fi < fj := by
  intro k
  induction k with
  | zero =>
    intro s i j fi fj _ _ h
    simp [allocate_frames_run] at h
  | succ k ih =>
    intro s i j fi fj hInv hij hi hj
    rw [allocate_frames_run_succ] at hi hj
    rcases hp : s.allocate_frame with ⟨r, s2⟩
    rw [hp] at hi hj
    have hInv2 := allocate_frame_inv map s r s2 hInv hp
    cases i with
    | zero =>
      simp only [List.get?_cons_zero, Option.some.injEq] at hi
      subst hi
      rcases j with _ | j
      · omega
      simp only [List.get?_cons_succ] at hj
      have hj2 := run_get_lower map k s2 j fj hInv2 hj
      have hs2 := (allocate_frame_some_spec map s fi s2 hInv hp).2.1
      omega
    | succ i =>
      rcases j with _ | j
      · omega
      simp only [List.get?_cons_succ] at hi hj
      exact ih s2 i j fi fj hInv2 (by omega) hi hj

/-- Claim C5: over any sequence of allocate_frame calls on an allocator
built with FrameAllocator::new, every returned frame starts at or after
physical 0x10000, lies inside the frame range of some Conventional
descriptor of the memory map, and is never returned a second time. -/
theorem frame_allocator_no_reuse (map : List MemoryDescriptor) (n i f : Nat)
    (hi : (allocation_trace map n).get? i = some (some f)) :
    0x10000 ≤ f * PAGE_SIZE ∧
    (∃ d ∈ map, d.ty = CONVENTIONAL ∧
      descriptor_start_frame d ≤ f ∧ f ≤ descriptor_end_frame d) ∧
    ∀ j, j ≠ i → (allocation_trace map n).get? j ≠ some (some f) := by
  have hInv := frame_allocator_inv_new map
  rw [allocation_trace] at hi
  have hlow := run_get_lower map n (FrameAllocator.new map) i f hInv hi
  have hstart : 0x10 ≤ (FrameAllocator.new map).next_frame := hInv.1
  obtain ⟨d, hd, hconv, h1, h2⟩ :=
    run_get_props map n (FrameAllocator.new map) i f hInv hi
  refine ⟨?_, ⟨d, hd, hconv, h1, by omega⟩, ?_⟩
  · rw [PAGE_SIZE]
    omega
  · intro j hj hcontra
    rw [allocation_trace] at hcontra
    rcases Nat.lt_or_ge i j with hij | hij
    · have := run_get_strict map n (FrameAllocator.new map) i j f f hInv hij hi hcontra
      omega
    · have hlt : j < i := by omega
      have := run_get_strict map n (FrameAllocator.new map) j i f f hInv hlt hcontra hi
      omega

/-- Witness for C5: map [Conventional, 0x100000, 3 pages], two calls; the
first call returns frame 0x100. -/
theorem frame_allocator_no_reuse_witness :
    0x10000 ≤ 0x100 * PAGE_SIZE ∧
    (∃ d ∈ [MemoryDescriptor.mk CONVENTIONAL 0x100000 3],
      d.ty = CONVENTIONAL ∧
      descriptor_start_frame d ≤ 0x100 ∧ 0x100 ≤ descriptor_end_frame d) ∧
    ∀ j, j ≠ 0 →
      (allocation_trace [MemoryDescriptor.mk CONVENTIONAL 0x100000 3] 2).get? j ≠
        some (some 0x100) :=
  frame_allocator_no_reuse [MemoryDescriptor.mk CONVENTIONAL 0x100000 3] 2 0 0x100
    (by decide)

lemma allocate_frame_from_descriptor_in_range (d : MemoryDescriptor) (w : Nat)
    (h1 : descriptor_start_frame d ≤ w) (h2 : w < descriptor_end_frame d) :
    allocate_frame_from_descriptor d w = (some w, w + 1) := by
  have hend := descriptor_end_frame_lt d
  have hadd : frame_add w 1 = w + 1 := by
    simp only [frame_add, saturating_add, MAX_PAGE_NUMBER, USIZE_MAX, PAGE_SIZE]
    omega
  rw [allocate_frame_from_descriptor_eq]
  simp only [if_neg (Nat.not_lt.2 h1)]
  rw [if_pos h2, hadd]

lemma allocate_frame_from_descriptor_at_end (d : MemoryDescriptor) (w : Nat)
    (h1 : descriptor_start_frame d ≤ w) (h2 : descriptor_end_frame d ≤ w) :
    allocate_frame_from_descriptor d w = (none, w) := by
  rw [allocate_frame_from_descriptor_eq]
  simp only [if_neg (Nat.not_lt.2 h1)]
  rw [if_neg (by omega)]

lemma run_within_descriptor (d : MemoryDescriptor)
    (orig m : List MemoryDescriptor) :
    ∀ k w, descriptor_start_frame d ≤ w → w + k = descriptor_end_frame d →
      allocate_frames_run k ⟨orig, m, some d, w⟩ =
        ((List.range k).map (fun i => some (w + i)),
          ⟨orig, m, some d, descriptor_end_frame d⟩) := by
  intro k
  induction k with
  | zero =>
    intro w h1 h2
    have hw : w = descriptor_end_frame d := by omega
    subst hw
    rfl
  | succ k ih =>
    intro w h1 h2
    have hlt : w < descriptor_end_frame d := by omega
    have hr := allocate_frame_from_descriptor_in_range d w h1 hlt
    have hstep : FrameAllocator.allocate_frame ⟨orig, m, some d, w⟩ =
        (some w, ⟨orig, m, some d, w + 1⟩) :=
      allocate_frame_cached_some ⟨orig, m, some d, w⟩ d w (w + 1) rfl hr
    rw [allocate_frames_run_succ, hstep]
    have hih := ih (w + 1) (by omega) (by omega)
    simp only
    rw [hih]
    simp only [Prod.mk.injEq, and_true]
    rw [List.range_succ_eq_map, List.map_cons, List.map_map]
    have hfun : (fun i => some (w + 1 + i)) =
        ((fun i => some (w + i)) ∘ Nat.succ) := by
      funext i
      exact congrArg some (by omega)
    rw [← hfun]
    simp

lemma allocate_frame_at_end_state (d : MemoryDescriptor)
    (orig : List MemoryDescriptor) (h1 : descriptor_start_frame d ≤ descriptor_end_frame d) :
    FrameAllocator.allocate_frame ⟨orig, [], some d, descriptor_end_frame d⟩ =
      (none, ⟨orig, [], none, descriptor_end_frame d⟩) := by
  have hr := allocate_frame_from_descriptor_at_end d (descriptor_end_frame d) h1
    (Nat.le_refl _)
  have := allocate_frame_cached_none ⟨orig, [], some d, descriptor_end_frame d⟩ d
    (descriptor_end_frame d) rfl hr
  rw [this]
  rfl

/-- Claim C4 (amended): from any watermark w inside the descriptor's
inclusive frame range, successive allocate_frame calls return every frame
of the range at or above w strictly below the end-inclusive frame, in
increasing order; the end-inclusive frame itself is never returned, and
the descriptor is treated as fully consumed (the cache is cleared) as
soon as the watermark equals or exceeds the end-inclusive frame. -/
theorem frame_allocator_descriptor_consumption (d : MemoryDescriptor) (w : Nat)
    (h1 : descriptor_start_frame d ≤ w) (h2 : w ≤ descriptor_end_frame d) :
    (allocate_frames_run (descriptor_end_frame d - w) ⟨[], [], some d, w⟩).1 =
      (List.range (descriptor_end_frame d - w)).map (fun i => some (w + i)) ∧
    (allocate_frames_run (descriptor_end_frame d - w) ⟨[], [], some d, w⟩).2 =
      ⟨[], [], some d, descriptor_end_frame d⟩ ∧
    FrameAllocator.allocate_frame ⟨[], [], some d, descriptor_end_frame d⟩ =
      (none, ⟨[], [], none, descriptor_end_frame d⟩) := by
  have h := run_within_descriptor d [] [] (descriptor_end_frame d - w) w h1 (by omega)
  exact ⟨by rw [h], by rw [h], allocate_frame_at_end_state d [] (by omega)⟩

/-- Claim C4, counterexample: a Conventional descriptor of exactly one
page, [0x100000, 0x101000).  Its inclusive frame range is [0x100, 0x100]
and the watermark 0x100 lies in it, yet allocate_frame returns none (the
end-inclusive frame 0x100 is never handed out) and the cache is cleared
even though the watermark merely equals — does not exceed — the
end-inclusive frame. -/
theorem end_inclusive_frame_never_returned :
    descriptor_start_frame ⟨CONVENTIONAL, 0x100000, 1⟩ = 0x100 ∧
    descriptor_end_frame ⟨CONVENTIONAL, 0x100000, 1⟩ = 0x100 ∧
    FrameAllocator.allocate_frame
        ⟨[], [], some ⟨CONVENTIONAL, 0x100000, 1⟩, 0x100⟩ =
      (none, ⟨[], [], none, 0x100⟩) := by
  refine ⟨by decide, by decide, by decide⟩

/-- Witness for C4 at the descriptor [Conventional, 0x100000, 3 pages]
and watermark 0x101. -/
theorem frame_allocator_descriptor_consumption_witness :
    (allocate_frames_run
        (descriptor_end_frame ⟨CONVENTIONAL, 0x100000, 3⟩ - 0x101)
        ⟨[], [], some ⟨CONVENTIONAL, 0x100000, 3⟩, 0x101⟩).1 =
      (List.range (descriptor_end_frame ⟨CONVENTIONAL, 0x100000, 3⟩ - 0x101)).map
        (fun i => some (0x101 + i)) ∧
    (allocate_frames_run
        (descriptor_end_frame ⟨CONVENTIONAL, 0x100000, 3⟩ - 0x101)
        ⟨[], [], some ⟨CONVENTIONAL, 0x100000, 3⟩, 0x101⟩).2 =
      ⟨[], [], some ⟨CONVENTIONAL, 0x100000, 3⟩,
        descriptor_end_frame ⟨CONVENTIONAL, 0x100000, 3⟩⟩ ∧
    FrameAllocator.allocate_frame
        ⟨[], [], some ⟨CONVENTIONAL, 0x100000, 3⟩,
          descriptor_end_frame ⟨CONVENTIONAL, 0x100000, 3⟩⟩ =
      (none, ⟨[], [], none, descriptor_end_frame ⟨CONVENTIONAL, 0x100000, 3⟩⟩) :=
  frame_allocator_descriptor_consumption ⟨CONVENTIONAL, 0x100000, 3⟩ 0x101
    (by decide) (by decide)

/-!
The top-level PageAllocator of src/uefi-bootloader/src/arch/x86_64/memory.rs
(the aarch64 variant in arch/aarch64/memory.rs has the identical
reservation logic over its level-0 table).  The 512 boolean flags are
modelled as a function on entry indices; entry 0 is preoccupied on
construction.
-/

/-- The 512-entry occupancy table for the top-level page-table entries. -/
structure PageAllocator where
  level_4_entries : Nat → Bool

/-- PageAllocator::new: all free except entry 0. -/
def PageAllocator.new : PageAllocator := ⟨fun i => i == 0⟩

/-- One window of slice::windows(num): entries idx..idx+num all unused. -/
def window_free (e : Nat → Bool) (idx num : Nat) : Bool :=
  (List.range num).all fun i => ! e (idx + i)

/-- PageAllocator::get_free_entries: the first index with num contiguous
free entries, which are then marked used.  none models the panics: the
slice::windows panic when num = 0 and the expect when no window is
free (windows of more than 512 entries yield no candidate at all). -/
def PageAllocator.get_free_entries (s : PageAllocator) (num : Nat) :
    Option (Nat × PageAllocator) :=
  if num = 0 then none
  else if 512 < num then none
  else
    match (List.range (513 - num)).find?
        (fun idx => window_free s.level_4_entries idx num) with
    | none => none
    | some idx =>
      some (idx, ⟨fun i => if idx ≤ i ∧ i < idx + num then true
        else s.level_4_entries i⟩)

/-- LEVEL_4_SIZE: the bytes covered by one top-level entry. -/
def LEVEL_4_SIZE : Nat := 4096 * 512 * 512 * 512

/-- Number of level-4 entries needed for len bytes:
(len + (LEVEL_4_SIZE - 1)) / LEVEL_4_SIZE, the usize addition wrapping. -/
def num_level_4_entries (len : Nat) : Nat :=
  (len + (LEVEL_4_SIZE - 1)) % 2 ^ 64 / LEVEL_4_SIZE

/-- PageAllocator::get_free_address: reserve the window and assemble the
virtual address from the returned index with all lower indices zero
(Page::from_page_table_indices_1gib sign-extends from bit 47). -/
def PageAllocator.get_free_address (s : PageAllocator) (len : Nat) :
    Option (Nat × PageAllocator) :=
  (s.get_free_entries (num_level_4_entries len)).map
    (fun p => (X86.canonicalize_virtual_address (p.1 <<< 39), p.2))

/-- The p4 index of a page number: bits 27..36 of the page number. -/
def page_p4_index (page : Nat) : Nat := (page >>> 27) &&& 0x1FF

/-- PageAllocator::mark_segment_as_used: mark every p4 index touched by
the segment's virtual range [p_vaddr, p_vaddr + p_memsz). -/
def PageAllocator.mark_segment_as_used (s : PageAllocator)
    (p_vaddr p_memsz : Nat) : PageAllocator :=
  let start := X86.canonicalize_virtual_address p_vaddr
  let end_inclusive :=
    X86.virtual_address_sub_usize (X86.virtual_address_add_usize start p_memsz) 1
  let start_page := start / PAGE_SIZE
  let end_page_inclusive := end_inclusive / PAGE_SIZE
  ⟨fun i => if page_p4_index start_page ≤ i ∧ i ≤ page_p4_index end_page_inclusive
    then true else s.level_4_entries i⟩

/-- The operations a client can run on the page allocator. -/
inductive PageAllocatorOp where
  | get_free_address (len : Nat)
  | mark_segment_as_used (p_vaddr p_memsz : Nat)

/-- One operation; none models a panic, which stops the program. -/
def page_allocator_step (s : PageAllocator) :
    PageAllocatorOp → Option PageAllocator
  | .get_free_address len => (s.get_free_address len).map Prod.snd
  | .mark_segment_as_used v m => some (s.mark_segment_as_used v m)

/-- A sequence of operations. -/
def page_allocator_run (s : PageAllocator) :
    List PageAllocatorOp → Option PageAllocator
  | [] => some s
  | op :: ops =>
    match page_allocator_step s op with
    | none => none
    | some s2 => page_allocator_run s2 ops

/-- The top-level entry index covering a virtual address. -/
def p4_of_address (v : Nat) : Nat := page_p4_index (v / PAGE_SIZE)

lemma window_free_spec (e : Nat → Bool) (idx num : Nat)
    (h : window_free e idx num = true) :
    ∀ i, i < num → e (idx + i) = false := by
  intro i hi
  rw [window_free, List.all_eq_true] at h
  have := h i (List.mem_range.2 hi)
  simp at this
  exact this

lemma get_free_entries_some (s : PageAllocator) (num idx : Nat)
    (s2 : PageAllocator) (h : s.get_free_entries num = some (idx, s2)) :
    1 ≤ num ∧ idx + num ≤ 512 ∧
    (∀ j, idx ≤ j → j < idx + num → s.level_4_entries j = false) ∧
    (∀ j, idx ≤ j → j < idx + num → s2.level_4_entries j = true) ∧
    (∀ j, s.level_4_entries j = true → s2.level_4_entries j = true) := by
  rw [PageAllocator.get_free_entries] at h
  by_cases h0 : num = 0
  · rw [if_pos h0] at h
    exact absurd h (by simp)
  rw [if_neg h0] at h
  by_cases h512 : 512 < num
  · rw [if_pos h512] at h
    exact absurd h (by simp)
  rw [if_neg h512] at h
  rcases hf : (List.range (513 - num)).find?
      (fun idx => window_free s.level_4_entries idx num) with _ | idx0
  · rw [hf] at h
    exact absurd h (by simp)
  rw [hf] at h
  simp only [Option.some.injEq, Prod.mk.injEq] at h
  obtain ⟨hidx, hs2⟩ := h
  subst hidx
  have hwin : window_free s.level_4_entries idx0 num = true := by
    have := List.find?_some hf
    simpa using this
  have hmem : idx0 ∈ List.range (513 - num) := List.mem_of_find?_eq_some hf
  have hlt : idx0 < 513 - num := List.mem_range.1 hmem
  refine ⟨by omega, by omega, ?_, ?_, ?_⟩
  · intro j hj1 hj2
    have := window_free_spec s.level_4_entries idx0 num hwin (j - idx0) (by omega)
    rwa [show idx0 + (j - idx0) = j from by omega] at this
  · intro j hj1 hj2
    rw [← hs2]
    simp only
    rw [if_pos ⟨hj1, hj2⟩]
  · intro j hj
    rw [← hs2]
    simp only
    by_cases hc : idx0 ≤ j ∧ j < idx0 + num
    · rw [if_pos hc]
    · rw [if_neg hc]
      exact hj

lemma get_free_address_some (s : PageAllocator) (len V : Nat)
    (s2 : PageAllocator) (h : s.get_free_address len = some (V, s2)) :
    ∃ idx, s.get_free_entries (num_level_4_entries len) = some (idx, s2) ∧
      V = X86.canonicalize_virtual_address (idx <<< 39) := by
  rw [PageAllocator.get_free_address, Option.map_eq_some'] at h
  obtain ⟨⟨idx, s3⟩, hf, heq⟩ := h
  simp only [Prod.mk.injEq] at heq
  exact ⟨idx, by rw [hf, heq.2], heq.1.symm⟩

lemma p4_of_address_shift (idx : Nat) (h : idx < 512) :
    p4_of_address (X86.canonicalize_virtual_address (idx <<< 39)) = idx := by
  have hmask : (0x1FF : Nat) = 2 ^ 9 - 1 := by norm_num
  have hsh : idx <<< 39 = idx * 2 ^ 39 := Nat.shiftLeft_eq idx 39
  rw [X86.canonicalize_virtual_eq, hsh, p4_of_address, page_p4_index, hmask,
    land_two_pow_sub_one, Nat.shiftRight_eq_div_pow, PAGE_SIZE]
  have hlt : idx * 2 ^ 39 < 2 ^ 48 := by omega
  have hm48 : idx * 2 ^ 39 % 2 ^ 48 = idx * 2 ^ 39 := Nat.mod_eq_of_lt hlt
  rw [hm48]
  rcases Nat.lt_or_ge (idx * 2 ^ 39) (2 ^ 47) with hc | hc
  · rw [if_pos hc]
    omega
  · rw [if_neg (by omega)]
    omega

lemma page_allocator_step_monotone (s : PageAllocator) (op : PageAllocatorOp)
    (s2 : PageAllocator) (h : page_allocator_step s op = some s2) :
    ∀ i, s.level_4_entries i = true → s2.level_4_entries i = true := by
  cases op with
  | get_free_address len =>
    simp only [page_allocator_step, Option.map_eq_some'] at h
    obtain ⟨⟨V, s3⟩, hV, hs3⟩ := h
    obtain ⟨idx, hentries, -⟩ := get_free_address_some s len V s3 hV
    have := (get_free_entries_some s (num_level_4_entries len) idx s3 hentries).2.2.2.2
    intro i hi
    rw [← hs3]
    exact this i hi
  | mark_segment_as_used v m =>
    simp only [page_allocator_step, Option.some.injEq] at h
    intro i hi
    rw [← h]
    simp only [PageAllocator.mark_segment_as_used]
    by_cases hc : page_p4_index (X86.canonicalize_virtual_address v / PAGE_SIZE) ≤ i ∧
        i ≤ page_p4_index (X86.virtual_address_sub_usize
          (X86.virtual_address_add_usize (X86.canonicalize_virtual_address v) m) 1 /
            PAGE_SIZE)
    · rw [if_pos hc]
    · rw [if_neg hc]
      exact hi

lemma page_allocator_run_monotone (ops : List PageAllocatorOp) :
    ∀ s s2 : PageAllocator, page_allocator_run s ops = some s2 →
      ∀ i, s.level_4_entries i = true → s2.level_4_entries i = true := by
  induction ops with
  | nil =>
    intro s s2 h i hi
    rw [page_allocator_run] at h
    simp only [Option.some.injEq] at h
    rw [← h]
    exact hi
  | cons op ops ih =>
    intro s s2 h i hi
    rw [page_allocator_run] at h
    rcases hstep : page_allocator_step s op with _ | smid
    · rw [hstep] at h
      exact absurd h (by simp)
    · rw [hstep] at h
      exact ih smid s2 h i (page_allocator_step_monotone s op smid hstep i hi)

/-- Claim C9: once get_free_address(len1) has returned V1, no later
get_free_address call — with any interleaving of get_free_address and
mark_segment_as_used operations in between — returns a window of
top-level entries overlapping V1's window of ceil(len1 / LEVEL_4_SIZE)
entries, and no returned window ever covers top-level entry 0. -/
theorem page_allocator_windows_disjoint (ops1 ops2 : List PageAllocatorOp)
    (s1 s1x s2 s2x : PageAllocator) (len1 len2 V1 V2 : Nat)
    (hrun1 : page_allocator_run PageAllocator.new ops1 = some s1)
    (hget1 : s1.get_free_address len1 = some (V1, s1x))
    (hrun2 : page_allocator_run s1x ops2 = some s2)
    (hget2 : s2.get_free_address len2 = some (V2, s2x)) :
    (∀ k, p4_of_address V1 ≤ k → k < p4_of_address V1 + num_level_4_entries len1 →
      ¬(p4_of_address V2 ≤ k ∧ k < p4_of_address V2 + num_level_4_entries len2)) ∧
    p4_of_address V1 ≠ 0 ∧ p4_of_address V2 ≠ 0 := by
  obtain ⟨idx1, he1, hV1⟩ := get_free_address_some s1 len1 V1 s1x hget1
  obtain ⟨idx2, he2, hV2⟩ := get_free_address_some s2 len2 V2 s2x hget2
  obtain ⟨hn1, hb1, hfree1, hmark1, -⟩ :=
    get_free_entries_some s1 (num_level_4_entries len1) idx1 s1x he1
  obtain ⟨hn2, hb2, hfree2, -, -⟩ :=
    get_free_entries_some s2 (num_level_4_entries len2) idx2 s2x he2
  have hp1 : p4_of_address V1 = idx1 := by rw [hV1, p4_of_address_shift idx1 (by omega)]
  have hp2 : p4_of_address V2 = idx2 := by rw [hV2, p4_of_address_shift idx2 (by omega)]
  have hzero1 : s1.level_4_entries 0 = true :=
    page_allocator_run_monotone ops1 PageAllocator.new s1 hrun1 0 rfl
  have hzero2 : s2.level_4_entries 0 = true := by
    refine page_allocator_run_monotone ops2 s1x s2 hrun2 0 ?_
    exact (get_free_entries_some s1 (num_level_4_entries len1) idx1 s1x he1).2.2.2.2 0 hzero1
  refine ⟨?_, ?_, ?_⟩
  · intro k hk1 hk2 ⟨hk3, hk4⟩
    rw [hp1] at hk1 hk2
    rw [hp2] at hk3 hk4
    have htrue : s1x.level_4_entries k = true := hmark1 k hk1 hk2
    have htrue2 : s2.level_4_entries k = true :=
      page_allocator_run_monotone ops2 s1x s2 hrun2 k htrue
    have hfalse : s2.level_4_entries k = false := hfree2 k hk3 hk4
    rw [htrue2] at hfalse
    exact absurd hfalse (by simp)
  · rw [hp1]
    intro hc
    subst hc
    have := hfree1 0 (Nat.le_refl 0) (by omega)
    rw [hzero1] at this
    exact absurd this (by simp)
  · rw [hp2]
    intro hc
    subst hc
    have := hfree2 0 (Nat.le_refl 0) (by omega)
    rw [hzero2] at this
    exact absurd this (by simp)

set_option maxRecDepth 8192 in
/-- Witness for C9: an empty prefix, a first request of one full
top-level entry (returning index 1, address 2 ^ 39), no interleaved
operations, and a second request of 4096 bytes (returning index 2). -/
theorem page_allocator_windows_disjoint_witness :
    (∀ k, p4_of_address 0x8000000000 ≤ k →
        k < p4_of_address 0x8000000000 + num_level_4_entries 0x8000000000 →
        ¬(p4_of_address 0x10000000000 ≤ k ∧
          k < p4_of_address 0x10000000000 + num_level_4_entries 4096)) ∧
    p4_of_address 0x8000000000 ≠ 0 ∧ p4_of_address 0x10000000000 ≠ 0 :=
  page_allocator_windows_disjoint [] [] PageAllocator.new _ _ _
    0x8000000000 4096 0x8000000000 0x10000000000 rfl rfl rfl rfl

/-!
Memory-map translation after exit_boot_services, from the loop in
src/uefi-bootloader/src/main.rs (main, lines 94-109).
-/

/-- Firmware memory type tags (uefi crate MemoryType values). -/
def LOADER_CODE : Nat := 1

/-- MemoryType::LOADER_DATA. -/
def LOADER_DATA : Nat := 2

/-- MemoryType::BOOT_SERVICES_CODE. -/
def BOOT_SERVICES_CODE : Nat := 3

/-- MemoryType::BOOT_SERVICES_DATA. -/
def BOOT_SERVICES_DATA : Nat := 4

/-- The kind field of a boot-info MemoryRegion. -/
inductive MemoryRegionKind where
  | Usable
  | UnknownUefi (tag : Nat)
deriving DecidableEq

/-- A boot-info MemoryRegion; end_ models the source field named end. -/
structure MemoryRegion where
  start : Nat
  end_ : Nat
  kind : MemoryRegionKind
deriving DecidableEq

/-- The loop body writing one MemoryRegion per firmware descriptor: start
is the descriptor's phys_start, end is phys_start + 1 (u64 addition), and
the kind collapses the five usable tags to Usable. -/
def region_from_descriptor (d : MemoryDescriptor) : MemoryRegion :=
  { start := d.phys_start,
    end_ := (d.phys_start + 1) % 2 ^ 64,
    kind :=
      if d.ty = CONVENTIONAL ∨ d.ty = LOADER_CODE ∨ d.ty = LOADER_DATA ∨
          d.ty = BOOT_SERVICES_CODE ∨ d.ty = BOOT_SERVICES_DATA then
        MemoryRegionKind.Usable
      else MemoryRegionKind.UnknownUefi d.ty }

/-- The whole translation loop over the final memory map. -/
def memory_regions_of (map : List MemoryDescriptor) : List MemoryRegion :=
  map.map region_from_descriptor

/-- Claim C1, code evaluation: on the memory map of spec scenario 4 — a
Conventional region [0x100000, 0x200000) and a BootServicesCode region
[0x200000, 0x201000) — both kinds collapse to Usable and both starts are
right, but each end field is phys_start + 1 instead of
phys_start + page_count * 4096. -/
theorem memory_region_end_off :
    memory_regions_of
        [⟨CONVENTIONAL, 0x100000, 0x100⟩, ⟨BOOT_SERVICES_CODE, 0x200000, 1⟩] =
      [⟨0x100000, 0x100001, MemoryRegionKind.Usable⟩,
        ⟨0x200000, 0x200001, MemoryRegionKind.Usable⟩] ∧
    (0x100001 : Nat) ≠ 0x100000 + 0x100 * PAGE_SIZE ∧
    (0x200001 : Nat) ≠ 0x200000 + 1 * PAGE_SIZE ∧
    (region_from_descriptor ⟨9, 0x300000, 1⟩).kind = MemoryRegionKind.UnknownUefi 9 := by
  refine ⟨by decide, by decide, by decide, by decide⟩

/-!
The RSDP configuration-table lookup of src/uefi-bootloader/src/main.rs
(get_rsdp_address).  Rust's Iterator::find consumes the iterator up to and
including the first match; the model returns the found entry together
with the remaining iterator, so the or_else fallback searches only what
is left after the first find.
-/

/-- A configuration-table entry: a 128-bit GUID and an address. -/
structure ConfigTableEntry where
  guid : Nat
  address : Nat
deriving DecidableEq

/-- The ACPI 1.0 RSDP GUID eb9d2d30-2d88-11d3-9a16-0090273fc14d. -/
def ACPI_GUID : Nat := 0xeb9d2d302d8811d39a160090273fc14d

/-- The ACPI 2.0 RSDP GUID 8868e871-e4f1-11d3-bc22-0080c73c8881. -/
def ACPI2_GUID : Nat := 0x8868e871e4f111d3bc220080c73c8881

/-- Iterator::find on a consuming iterator: the first match and the
elements remaining after it (all elements are consumed when there is no
match). -/
def iter_find (p : ConfigTableEntry → Bool) :
    List ConfigTableEntry → Option ConfigTableEntry × List ConfigTableEntry
  | [] => (none, [])
  | e :: rest => if p e then (some e, rest) else iter_find p rest

/-- get_rsdp_address: find an ACPI2 entry first; or_else runs the ACPI1
search on the same, already advanced, iterator. -/
def get_rsdp_address (config_table : List ConfigTableEntry) : Option Nat :=
  let acpi2_rsdp := iter_find (fun e => e.guid == ACPI2_GUID) config_table
  let rsdp :=
    match acpi2_rsdp.1 with
    | some e => some e
    | none => (iter_find (fun e => e.guid == ACPI_GUID) acpi2_rsdp.2).1
  rsdp.map (fun e => e.address)

/-- Claim C3, code evaluation: with an ACPI2 entry present its address is
returned, but on a table whose only RSDP entry carries the ACPI1 GUID the
function returns none — the failed ACPI2 find has already exhausted the
iterator, so the ACPI1 fallback scans nothing. -/
theorem rsdp_acpi1_fallback_dead :
    get_rsdp_address [⟨ACPI2_GUID, 0x4321⟩, ⟨ACPI_GUID, 0x1234⟩] = some 0x4321 ∧
    (∃ e ∈ [ConfigTableEntry.mk ACPI_GUID 0x1234], e.guid = ACPI_GUID) ∧
    get_rsdp_address [⟨ACPI_GUID, 0x1234⟩] = none := by
  refine ⟨by decide, by decide, by decide⟩

/-!
The memory effect of Loader::handle_load_segment, in its two versions:
src/uefi-bootloader/src/kernel.rs zero-fills the BSS tail at
p_paddr + p_filesz, src/src/kernel.rs at p_offset + p_filesz.  Byte
memory and the kernel file are functions from addresses/offsets to byte
values; the page-table mapping installed by map_segment does not change
byte contents under the firmware identity mapping and is modelled
separately with the mapper.
-/

/-- file.read into the slice at dst: copy n bytes from file offset src. -/
def copy_from_file (mem file : Nat → Nat) (dst src n : Nat) : Nat → Nat :=
  fun a => if dst ≤ a ∧ a < dst + n then file (src + (a - dst)) else mem a

/-- core::ptr::write_bytes(start, 0, n). -/
def write_bytes_zero (mem : Nat → Nat) (start n : Nat) : Nat → Nat :=
  fun a => if start ≤ a ∧ a < start + n then 0 else mem a

/-- Wrapping u64 subtraction (release-build semantics of a - b). -/
def u64_wrapping_sub (a b : Nat) : Nat := (a % 2 ^ 64 + 2 ^ 64 - b % 2 ^ 64) % 2 ^ 64

/-- An ELF64 program header (the fields the loader reads). -/
structure ProgramHeader where
  p_type : Nat
  p_flags : Nat
  p_offset : Nat
  p_vaddr : Nat
  p_paddr : Nat
  p_filesz : Nat
  p_memsz : Nat
deriving DecidableEq

/-- handle_load_segment of src/uefi-bootloader/src/kernel.rs: copy
p_filesz bytes from p_offset to p_paddr, then zero memsz - filesz bytes
at p_paddr + p_filesz. -/
def handle_load_segment_memory (mem file : Nat → Nat)
    (segment : ProgramHeader) : Nat → Nat :=
  let mem1 := copy_from_file mem file segment.p_paddr segment.p_offset segment.p_filesz
  let bss_start := (segment.p_paddr + segment.p_filesz) % 2 ^ 64
  let bss_size := u64_wrapping_sub segment.p_memsz segment.p_filesz
  write_bytes_zero mem1 bss_start bss_size

/-- handle_load_segment of src/src/kernel.rs: same copy, but the zeroed
range starts at p_offset + p_filesz — a file offset used as a physical
address. -/
def handle_load_segment_memory_src (mem file : Nat → Nat)
    (segment : ProgramHeader) : Nat → Nat :=
  let mem1 := copy_from_file mem file segment.p_paddr segment.p_offset segment.p_filesz
  let bss_start := (segment.p_offset + segment.p_filesz) % 2 ^ 64
  let bss_size := u64_wrapping_sub segment.p_memsz segment.p_filesz
  write_bytes_zero mem1 bss_start bss_size

/-- Claim C6, code evaluation: a LOAD segment with p_offset = 0x1000,
p_paddr = 0x200000, filesz = 0x100, memsz = 0x200 over memory previously
holding 0xFF everywhere.  The uefi-bootloader loader leaves the byte at
p_paddr + p_filesz = 0x200100 zero as the claim demands; the src variant
zeroes at p_offset + p_filesz = 0x1100 instead and leaves 0xFF at
0x200100. -/
theorem bss_zeroed_at_file_offset :
    handle_load_segment_memory (fun _ => 0xFF) (fun _ => 0xAA)
        ⟨1, 5, 0x1000, 0xFFFF800000000000, 0x200000, 0x100, 0x200⟩ 0x200100 = 0 ∧
    handle_load_segment_memory_src (fun _ => 0xFF) (fun _ => 0xAA)
        ⟨1, 5, 0x1000, 0xFFFF800000000000, 0x200000, 0x100, 0x200⟩ 0x200100 = 0xFF ∧
    handle_load_segment_memory_src (fun _ => 0xFF) (fun _ => 0xAA)
        ⟨1, 5, 0x1000, 0xFFFF800000000000, 0x200000, 0x100, 0x200⟩ 0x1100 = 0 ∧
    (0xFF : Nat) ≠ 0 := by
  refine ⟨by decide, by decide, by decide, by decide⟩

/-!
Stack set-up: the free function set_up_mappings of
src/uefi-bootloader/src/main.rs maps the 17 stack pages above the guard
page with PRESENT | WRITABLE; RuntimeContext::set_up_mappings of
src/uefi-bootloader/src/mappings.rs maps them with the builder-style
flags present, writable and no_execute.  The per-page allocate_frame
results are modelled as a stream indexed by loop iteration.
-/

/-- Bitwise not on a 64-bit value. -/
def u64_not (b : Nat) : Nat := 2 ^ 64 - 1 - b

namespace X86

/-- PteFlags::PRESENT (x86_64 crate PageTableFlags). -/
def PRESENT : Nat := 1

/-- PteFlags::WRITABLE. -/
def WRITABLE : Nat := 1 <<< 1

/-- PteFlags::NO_EXECUTE. -/
def NO_EXECUTE : Nat := 1 <<< 63

end X86

namespace A64

/-- PteFlags::new() of arch/aarch64/memory.rs. -/
def pte_flags_new : Nat := 0

/-- PteFlags::present: bit 0. -/
def pte_flags_present (f : Nat) (enable : Bool) : Nat :=
  if enable then f ||| 1 else f &&& u64_not 1

/-- PteFlags::page_descriptor: bit 1. -/
def pte_flags_page_descriptor (f : Nat) (enable : Bool) : Nat :=
  if enable then f ||| (1 <<< 1) else f &&& u64_not (1 <<< 1)

/-- PteFlags::writable: AP[2], bit 7, inverted — writable clears it. -/
def pte_flags_writable (f : Nat) (enable : Bool) : Nat :=
  if enable then f &&& u64_not (1 <<< 7) else f ||| (1 <<< 7)

/-- PteFlags::no_execute: UXN and PXN, bits 53 and 54. -/
def pte_flags_no_execute (f : Nat) (enable : Bool) : Nat :=
  if enable then f ||| ((1 <<< 53) ||| (1 <<< 54))
  else f &&& u64_not ((1 <<< 53) ||| (1 <<< 54))

end A64

/-- STACK_SIZE = 18 * 4096. -/
def STACK_SIZE : Nat := 18 * 4096

/-- The stack loop of set_up_mappings in src/uefi-bootloader/src/main.rs:
pages (stack_start + 1)..=stack_end each mapped to the next allocated
frame with PRESENT | WRITABLE (the guard page stack_start is skipped). -/
def set_up_stack_mappings_main (stack_start_address : Nat)
    (frames : Nat → Nat) : List (Nat × Nat × Nat) :=
  let stack_start := stack_start_address / PAGE_SIZE
  let stack_end :=
    X86.virtual_address_sub_usize
      (X86.virtual_address_add_usize stack_start_address STACK_SIZE) 1 / PAGE_SIZE
  (List.range (stack_end + 1 - frame_add stack_start 1)).map
    (fun k => (frame_add stack_start 1 + k, frames k, X86.PRESENT ||| X86.WRITABLE))

/-- The stack loop of RuntimeContext::set_up_mappings in
src/uefi-bootloader/src/mappings.rs: the same pages and frames, flags
built as new().present(true).writable(true).no_execute(true). -/
def set_up_stack_mappings_runtime (stack_start_address : Nat)
    (frames : Nat → Nat) : List (Nat × Nat × Nat) :=
  let stack_start := stack_start_address / PAGE_SIZE
  let stack_end :=
    X86.virtual_address_sub_usize
      (X86.virtual_address_add_usize stack_start_address STACK_SIZE) 1 / PAGE_SIZE
  (List.range (stack_end + 1 - frame_add stack_start 1)).map
    (fun k => (frame_add stack_start 1 + k, frames k,
      A64.pte_flags_no_execute
        (A64.pte_flags_writable (A64.pte_flags_present A64.pte_flags_new true) true)
        true))

lemma canon_shift_cases (idx : Nat) (hidx : idx < 512) :
    X86.canonicalize_virtual_address (idx <<< 39) = idx * 2 ^ 39 ∧ idx < 256 ∨
    X86.canonicalize_virtual_address (idx <<< 39) =
      idx * 2 ^ 39 + (2 ^ 64 - 2 ^ 48) ∧ 256 ≤ idx := by
  rw [Nat.shiftLeft_eq, X86.canonicalize_virtual_eq]
  have hlt : idx * 2 ^ 39 < 2 ^ 48 := by omega
  have hm : idx * 2 ^ 39 % 2 ^ 48 = idx * 2 ^ 39 := Nat.mod_eq_of_lt hlt
  rw [hm]
  rcases Nat.lt_or_ge (idx * 2 ^ 39) (2 ^ 47) with hc | hc
  · rw [if_pos hc]
    left
    exact ⟨rfl, by omega⟩
  · rw [if_neg (by omega)]
    right
    exact ⟨rfl, by omega⟩

lemma canon_eq_self_of_range (a : Nat) (h : a < 2 ^ 47 ∨ (2 ^ 64 - 2 ^ 47 ≤ a ∧ a < 2 ^ 64)) :
    X86.canonicalize_virtual_address a = a := by
  rw [X86.canonicalize_virtual_eq]
  rcases h with h | h
  · rw [if_pos (by omega : a % 2 ^ 48 < 2 ^ 47)]
    omega
  · rw [if_neg (by omega)]
    omega

lemma stack_end_eq (V : Nat)
    (hal : V % PAGE_SIZE = 0)
    (h : V + STACK_SIZE < 2 ^ 47 ∨ (2 ^ 64 - 2 ^ 47 ≤ V ∧ V + STACK_SIZE < 2 ^ 64)) :
    X86.virtual_address_sub_usize
        (X86.virtual_address_add_usize V STACK_SIZE) 1 / PAGE_SIZE =
      V / PAGE_SIZE + 17 := by
  rw [X86.virtual_address_add_usize, X86.virtual_address_sub_usize,
    saturating_add, saturating_sub, USIZE_MAX]
  have hmin : min (V + STACK_SIZE) (2 ^ 64 - 1) = V + STACK_SIZE := by
    rw [STACK_SIZE] at h ⊢
    omega
  rw [hmin]
  have h1 : X86.canonicalize_virtual_address (V + STACK_SIZE) = V + STACK_SIZE := by
    apply canon_eq_self_of_range
    rw [STACK_SIZE] at h ⊢
    omega
  rw [h1]
  have h2 : X86.canonicalize_virtual_address (V + STACK_SIZE - 1) =
      V + STACK_SIZE - 1 := by
    apply canon_eq_self_of_range
    rw [STACK_SIZE] at h ⊢
    omega
  rw [h2, STACK_SIZE, PAGE_SIZE] at *
  omega

/-- Claim C7 (amended): the stack occupies 18 pages starting at the
virtual address returned by the page allocator; the first page is a
guard left unmapped, and each page from start + 1 through the end page
is mapped to the next freshly allocated frame — with exactly
PRESENT and WRITABLE in set_up_mappings of main.rs (no NO_EXECUTE
there), and exactly present, writable and no_execute in
RuntimeContext::set_up_mappings. -/
theorem stack_mappings_layout (idx V : Nat) (frames : Nat → Nat)
    (hidx : idx < 512)
    (hV : V = X86.canonicalize_virtual_address (idx <<< 39)) :
    X86.virtual_address_sub_usize
        (X86.virtual_address_add_usize V STACK_SIZE) 1 / PAGE_SIZE =
      V / PAGE_SIZE + 17 ∧
    set_up_stack_mappings_main V frames =
      (List.range 17).map
        (fun k => (V / PAGE_SIZE + 1 + k, frames k, X86.PRESENT ||| X86.WRITABLE)) ∧
    set_up_stack_mappings_runtime V frames =
      (List.range 17).map
        (fun k => (V / PAGE_SIZE + 1 + k, frames k,
          A64.pte_flags_no_execute
            (A64.pte_flags_writable
              (A64.pte_flags_present A64.pte_flags_new true) true) true)) ∧
    ∀ m ∈ set_up_stack_mappings_main V frames, m.1 ≠ V / PAGE_SIZE := by
  have hcases := canon_shift_cases idx hidx
  rw [← hV] at hcases
  have hal : V % PAGE_SIZE = 0 := by
    rw [PAGE_SIZE]
    rcases hcases with ⟨hv, -⟩ | ⟨hv, -⟩ <;> omega
  have hrange : V + STACK_SIZE < 2 ^ 47 ∨
      (2 ^ 64 - 2 ^ 47 ≤ V ∧ V + STACK_SIZE < 2 ^ 64) := by
    rw [STACK_SIZE]
    rcases hcases with ⟨hv, hi⟩ | ⟨hv, hi⟩
    · left
      omega
    · right
      omega
  have hend := stack_end_eq V hal hrange
  have hbound : V / 4096 + 1 ≤ (2 ^ 64 - 1) / 4096 := by
    rcases hcases with ⟨hv, hi⟩ | ⟨hv, hi⟩ <;> omega
  have hadd1 : frame_add (V / PAGE_SIZE) 1 = V / PAGE_SIZE + 1 := by
    rw [frame_add, saturating_add, MAX_PAGE_NUMBER, USIZE_MAX, PAGE_SIZE]
    omega
  refine ⟨hend, ?_, ?_, ?_⟩
  · rw [set_up_stack_mappings_main]
    simp only [hend, hadd1]
    rw [show V / PAGE_SIZE + 17 + 1 - (V / PAGE_SIZE + 1) = 17 from by omega]
  · rw [set_up_stack_mappings_runtime]
    simp only [hend, hadd1]
    rw [show V / PAGE_SIZE + 17 + 1 - (V / PAGE_SIZE + 1) = 17 from by omega]
  · intro m hm
    rw [set_up_stack_mappings_main] at hm
    simp only [hend, hadd1, List.mem_map, List.mem_range] at hm
    obtain ⟨k, -, hk⟩ := hm
    rw [← hk]
    simp only
    omega

/-- Claim C7, counterexample: at the allocator-returned stack base
0x8000000000 the main.rs loop maps all 17 stack pages with flag value
PRESENT | WRITABLE = 3, which is not PRESENT | WRITABLE | NO_EXECUTE —
the claimed NO_EXECUTE bit is absent. -/
theorem stack_flags_missing_no_execute :
    (set_up_stack_mappings_main 0x8000000000 (fun k => 0x600 + k)).map
        (fun m => m.2.2) =
      List.replicate 17 (X86.PRESENT ||| X86.WRITABLE) ∧
    X86.PRESENT ||| X86.WRITABLE ≠
      X86.PRESENT ||| X86.WRITABLE ||| X86.NO_EXECUTE := by
  refine ⟨by decide, by decide⟩

/-- Witness for C7 at idx = 1 (stack base 2 ^ 39). -/
theorem stack_mappings_layout_witness :
    X86.virtual_address_sub_usize
        (X86.virtual_address_add_usize 0x8000000000 STACK_SIZE) 1 / PAGE_SIZE =
      0x8000000000 / PAGE_SIZE + 17 ∧
    set_up_stack_mappings_main 0x8000000000 (fun k => 0x600 + k) =
      (List.range 17).map
        (fun k => (0x8000000000 / PAGE_SIZE + 1 + k, 0x600 + k,
          X86.PRESENT ||| X86.WRITABLE)) ∧
    set_up_stack_mappings_runtime 0x8000000000 (fun k => 0x600 + k) =
      (List.range 17).map
        (fun k => (0x8000000000 / PAGE_SIZE + 1 + k, 0x600 + k,
          A64.pte_flags_no_execute
            (A64.pte_flags_writable
              (A64.pte_flags_present A64.pte_flags_new true) true) true)) ∧
    ∀ m ∈ set_up_stack_mappings_main 0x8000000000 (fun k => 0x600 + k),
      m.1 ≠ 0x8000000000 / PAGE_SIZE :=
  stack_mappings_layout 1 0x8000000000 (fun k => 0x600 + k) (by omega) (by decide)

/-!
The aarch64 Mapper of src/uefi-bootloader/src/arch/aarch64/memory.rs.
Physical memory is modelled as a function from byte addresses to the u64
word stored there; page tables are 512-entry arrays of u64 descriptors,
entry i of the table at base t living at address t + 8 * i.  The frame
allocator passed to map is abstracted to the stream of frames it returns,
as the trait bound allows.
-/

namespace A64

/-- Page::p0_index: bits 27..36 of the page number. -/
def page_p0_index (page : Nat) : Nat := (page >>> 27) &&& 0x1FF

/-- Page::p1_index: bits 18..27 of the page number. -/
def page_p1_index (page : Nat) : Nat := (page >>> 18) &&& 0x1FF

/-- Page::p2_index: bits 9..18 of the page number. -/
def page_p2_index (page : Nat) : Nat := (page >>> 9) &&& 0x1FF

/-- Page::p3_index: the low 9 bits of the page number. -/
def page_p3_index (page : Nat) : Nat := page &&& 0x1FF

/-- Frame::start_address on aarch64: number * PAGE_SIZE, canonicalized. -/
def frame_start_address (frame : Nat) : Nat :=
  canonicalize_physical_address (frame * PAGE_SIZE % 2 ^ 64)

/-- PageTableEntry::is_unused. -/
def entry_is_unused (e : Nat) : Bool := e == 0

/-- PageTableEntry::output_address: the entry masked by
!(PAGE_SIZE - 1) & !(0xffff << 48). -/
def entry_output_address (e : Nat) : Nat :=
  canonicalize_physical_address
    (e &&& (u64_not (PAGE_SIZE - 1) &&& u64_not (0xFFFF <<< 48)))

/-- PageTableEntry::set writes frame.start_address() | 0x70f: the flags
argument is ignored by the source (the frame | flags write is commented
out there). -/
def entry_set (frame flags : Nat) : Nat :=
  frame_start_address frame ||| 0x70F

/-- PageTableEntry::as_page_table: bits 12..52 shifted into place. -/
def entry_as_page_table (e : Nat) : Nat := get_bits e 12 52 <<< 12

/-- The flag bits of a descriptor: everything outside the
output-address field. -/
def entry_flag_bits (e : Nat) : Nat :=
  e &&& u64_not (u64_not (PAGE_SIZE - 1) &&& u64_not (0xFFFF <<< 48))

/-- ptr::write_bytes(table, 0, 1): zero the 4 KiB page at base. -/
def zero_page (mem : Nat → Nat) (base : Nat) : Nat → Nat :=
  fun a => if base ≤ a ∧ a < base + PAGE_SIZE then 0 else mem a

/-- Store the u64 v at address a. -/
def write_word (mem : Nat → Nat) (a v : Nat) : Nat → Nat :=
  fun x => if x = a then v else mem x

/-- The mapper state: physical memory plus the stream of frames the
frame allocator will hand out for intermediate tables. -/
structure A64MapState where
  mem : Nat → Nat
  fresh : List Nat

/-- PageTable::create_next_table: if the entry at index is unused,
allocate a frame, zero it, and link it with the table flags; then follow
the entry.  Returns the child table base address. -/
def create_next_table (st : A64MapState) (table index page_table_flags : Nat) :
    Nat × A64MapState :=
  let a := table + 8 * index
  if entry_is_unused (st.mem a) then
    match st.fresh with
    | [] => (0, st)
    | f :: rest =>
      let mem1 := zero_page st.mem (frame_start_address f)
      let e := entry_set f page_table_flags
      let mem2 := write_word mem1 a e
      (entry_as_page_table e, ⟨mem2, rest⟩)
  else (entry_as_page_table (st.mem a), st)

/-- Mapper::map: walk/create the three intermediate levels with
present | page_descriptor | writable | no_execute table flags, then set
the leaf entry at the p3 index to frame with flags.page_descriptor(true). -/
def mapper_map (st : A64MapState) (root page frame flags : Nat) : A64MapState :=
  let page_table_flags :=
    pte_flags_no_execute
      (pte_flags_writable
        (pte_flags_page_descriptor (pte_flags_present pte_flags_new true) true)
        true) true
  let r1 := create_next_table st root (page_p0_index page) page_table_flags
  let r2 := create_next_table r1.2 r1.1 (page_p1_index page) page_table_flags
  let r3 := create_next_table r2.2 r2.1 (page_p2_index page) page_table_flags
  ⟨write_word r3.2.mem (r3.1 + 8 * page_p3_index page)
    (entry_set frame (pte_flags_page_descriptor flags true)), r3.2.fresh⟩

/-- A software walk from the root following the page's p0..p3 indices,
returning the leaf descriptor. -/
def walk (mem : Nat → Nat) (root page : Nat) : Nat :=
  let e0 := mem (root + 8 * page_p0_index page)
  let e1 := mem (entry_as_page_table e0 + 8 * page_p1_index page)
  let e2 := mem (entry_as_page_table e1 + 8 * page_p2_index page)
  mem (entry_as_page_table e2 + 8 * page_p3_index page)

end A64

/-- Claim C2, code evaluation: mapping page 0 to frame 5 with requested
flags present(true).no_execute(true) on fresh tables (root 0x1000,
intermediate frames 2, 3 and 4).  The walk does reach a leaf whose
output address is the frame's start address 0x5000, but the leaf is
0x5000 | 0x70F: its flag bits are 0x70F, not the requested
flags.page_descriptor(true) — in particular both no-execute bits 53 and
54 are clear although NO_EXECUTE was requested, because
PageTableEntry::set ignores its flags argument. -/
theorem aarch64_leaf_ignores_flags :
    A64.walk
        (A64.mapper_map ⟨fun _ => 0, [2, 3, 4]⟩ 0x1000 0 5
          (A64.pte_flags_no_execute (A64.pte_flags_present A64.pte_flags_new true)
            true)).mem
        0x1000 0 = 0x570F ∧
    A64.entry_output_address 0x570F = A64.frame_start_address 5 ∧
    A64.entry_flag_bits 0x570F = 0x70F ∧
    0x70F ≠ A64.pte_flags_page_descriptor
      (A64.pte_flags_no_execute (A64.pte_flags_present A64.pte_flags_new true) true)
      true ∧
    get_bits 0x570F 53 55 = 0 := by
  refine ⟨by decide, by decide, by decide, by decide, by decide⟩

end Spec2Proof
